import Mathlib

/-!
Verification of the Dataset Ingestion & Region Resolution Engine
(`server.js` of the property-details service).

The JavaScript source is shallowly embedded: strings are `List Char`
(`Str`), JavaScript `Map`s are insertion-ordered association lists,
numeric CSV cell values are `ℚ` (JavaScript number conversion of a
non-empty cell is abstracted by a `num : Str → Option ℚ` parameter,
`none` playing the role of `NaN`), and the external collaborators
(network fetch, geocoder) are explicit oracle parameters.  Every
definition mirrors the corresponding function of `server.js`; the few
spec-side definitions (e.g. the textbook Levenshtein recurrence) are
named `...Spec`.
-/

set_option maxHeartbeats 1600000

namespace Server

/-- Strings of the embedded program, as lists of characters. -/
abbrev Str := List Char

/-- JavaScript `\s` restricted to the ASCII whitespace actually occurring
in addresses and CSV cells. -/
def isSpaceJS (c : Char) : Bool :=
  c = ' ' || c = '\t' || c = '\n' || c = '\r'

/-- `String.prototype.trim` (ASCII whitespace). -/
def trimJS (s : Str) : Str :=
  ((s.dropWhile isSpaceJS).reverse.dropWhile isSpaceJS).reverse

/-- `String.prototype.toUpperCase` (ASCII). -/
def toUpperJS (s : Str) : Str := s.map Char.toUpper

/-- `String.prototype.toLowerCase` (ASCII). -/
def toLowerJS (s : Str) : Str := s.map Char.toLower

/-- JavaScript `\w` word character (`[A-Za-z0-9_]`), used for `\b`. -/
def isWordChar (c : Char) : Bool := c.isAlphanum || c = '_'

/-- `[0-9]`, JavaScript `\d`. -/
def isDigitJS (c : Char) : Bool := c.isDigit

/-- `[A-Za-z]`. -/
def isLetterJS (c : Char) : Bool := c.isAlpha

/-- `[A-Z]` (the case-sensitive two-letter state pattern). -/
def isUpperAZ (c : Char) : Bool := 'A' ≤ c && c ≤ 'Z'

/-- First value stored under a key in an insertion-ordered association
list; `Map.prototype.get`. -/
def lookupA {α : Type} (m : List (Str × α)) (k : Str) : Option α :=
  (m.find? (fun p => p.1 = k)).map Prod.snd

/-- `Map.prototype.set`: replace in place if the key is present,
otherwise append (JavaScript `Map`s preserve insertion order; keys in a
`Map` are unique, so replacing the first occurrence is exact). -/
def mapSet {α : Type} (m : List (Str × α)) (k : Str) (v : α) : List (Str × α) :=
  match m with
  | [] => [(k, v)]
  | p :: ps => if p.1 = k then (k, v) :: ps else p :: mapSet ps k v

/-- `String.prototype.split(',')`. -/
def splitComma : Str → List Str
  | [] => [[]]
  | c :: cs =>
    if c = ',' then [] :: splitComma cs
    else match splitComma cs with
      | [] => [[c]]
      | f :: fs => (c :: f) :: fs

/-- `a.startsWith(b)` — `b` begins `a`. -/
def startsWithJS (a b : Str) : Bool := a.take b.length = b

/-- `key.endsWith(', ' + st)`. -/
def endsWithCommaST (key st : Str) : Bool :=
  (List.cons ',' (' ' :: st)).isSuffixOf key

/-- `key.split(',')[0]` — the city portion of a metro key. -/
def cityPartOf (key : Str) : Str := key.takeWhile (fun c => c ≠ ',')

/-- `arr.slice(-n)`: the last `n` elements (all of them if fewer). -/
def takeLast {α : Type} (n : Nat) (l : List α) : List α := l.drop (l.length - n)

/-! ## CSV field tokenizer (`parseCsvLine`, server.js lines 30-52)

State: accumulated fields `out`, current field `cur`, quote flag
`inQuotes`.  A `"` inside quotes followed by another `"` emits one
literal quote; otherwise `"` toggles the quote state; `,` outside
quotes ends the current field; every other character is appended. -/

def parseCsvLineAux : Str → Str → Bool → List Str → List Str
  | [], cur, _, out => out ++ [cur]
  | c :: rest, cur, inQuotes, out =>
    if c = '"' then
      if inQuotes then
        match rest with
        | c2 :: rest2 =>
          if c2 = '"' then parseCsvLineAux rest2 (cur ++ ['"']) inQuotes out
          else parseCsvLineAux (c2 :: rest2) cur false out
        | [] => parseCsvLineAux [] cur false out
      else parseCsvLineAux rest cur true out
    else if c = ',' && !inQuotes then
      parseCsvLineAux rest [] inQuotes (out ++ [cur])
    else parseCsvLineAux rest (cur ++ [c]) inQuotes out
  termination_by l _ _ _ => l.length

/-- `parseCsvLine(line)` (server.js lines 30-52). -/
def parseCsvLine (line : Str) : List Str := parseCsvLineAux line [] false []

/-- Spec-side: render one field as a double-quoted CSV field, doubling
every embedded quote. -/
def escapeQuotes : Str → Str
  | [] => []
  | c :: cs => if c = '"' then '"' :: '"' :: escapeQuotes cs else c :: escapeQuotes cs

/-- Spec-side: a double-quoted CSV field. -/
def renderField (f : Str) : Str := '"' :: (escapeQuotes f ++ ['"'])

/-- Spec-side: join rendered fields with commas. -/
def joinComma : List Str → Str
  | [] => []
  | [f] => f
  | f :: fs => f ++ ',' :: joinComma fs

theorem escapeQuotes_quote (cs : Str) :
    escapeQuotes ('"' :: cs) = '"' :: '"' :: escapeQuotes cs := by
  simp [escapeQuotes]

theorem escapeQuotes_other (c : Char) (cs : Str) (h : c ≠ '"') :
    escapeQuotes (c :: cs) = c :: escapeQuotes cs := by
  simp [escapeQuotes, h]

theorem parseCsvLineAux_nil (cur : Str) (inQ : Bool) (out : List Str) :
    parseCsvLineAux [] cur inQ out = out ++ [cur] := by
  rw [parseCsvLineAux.eq_def]

theorem parseCsvLineAux_open (rest cur : Str) (out : List Str) :
    parseCsvLineAux ('"' :: rest) cur false out =
      parseCsvLineAux rest cur true out := by
  rw [parseCsvLineAux.eq_def]; simp

theorem parseCsvLineAux_close_nil (cur : Str) (out : List Str) :
    parseCsvLineAux ['"'] cur true out = parseCsvLineAux [] cur false out := by
  rw [parseCsvLineAux.eq_def]; simp

theorem parseCsvLineAux_close (c2 : Char) (rest2 cur : Str) (out : List Str)
    (h : c2 ≠ '"') :
    parseCsvLineAux ('"' :: c2 :: rest2) cur true out =
      parseCsvLineAux (c2 :: rest2) cur false out := by
  rw [parseCsvLineAux.eq_def]; simp [h]

theorem parseCsvLineAux_escape (rest2 cur : Str) (out : List Str) :
    parseCsvLineAux ('"' :: '"' :: rest2) cur true out =
      parseCsvLineAux rest2 (cur ++ ['"']) true out := by
  rw [parseCsvLineAux.eq_def]; simp

theorem parseCsvLineAux_comma (rest cur : Str) (out : List Str) :
    parseCsvLineAux (',' :: rest) cur false out =
      parseCsvLineAux rest [] false (out ++ [cur]) := by
  rw [parseCsvLineAux.eq_def]; simp

theorem parseCsvLineAux_inq (c : Char) (rest cur : Str) (out : List Str)
    (h : c ≠ '"') :
    parseCsvLineAux (c :: rest) cur true out =
      parseCsvLineAux rest (cur ++ [c]) true out := by
  rw [parseCsvLineAux.eq_def]; simp [h]

theorem parseCsvLineAux_char (c : Char) (rest cur : Str) (out : List Str)
    (h1 : c ≠ '"') (h2 : c ≠ ',') :
    parseCsvLineAux (c :: rest) cur false out =
      parseCsvLineAux rest (cur ++ [c]) false out := by
  rw [parseCsvLineAux.eq_def]; simp [h1, h2]

/-- Consuming the escaped body of a quoted field: while in quote state,
the doubled quotes of `escapeQuotes f` collapse back to `f`, and the
closing quote (not followed by another quote) leaves quote state. -/
theorem parseCsvLineAux_escaped (f : Str) : ∀ (rest cur : Str) (out : List Str),
    rest.head? ≠ some '"' →
    parseCsvLineAux (escapeQuotes f ++ '"' :: rest) cur true out =
      parseCsvLineAux rest (cur ++ f) false out := by
  induction f with
  | nil =>
    intro rest cur out h
    simp only [escapeQuotes, List.nil_append, List.append_nil]
    match rest, h with
    | [], _ => rw [parseCsvLineAux_close_nil]
    | c2 :: rest2, h =>
      have hc2 : c2 ≠ '"' := by
        intro hh; exact h (by simp [hh])
      rw [parseCsvLineAux_close c2 rest2 cur out hc2]
  | cons c cs ih =>
    intro rest cur out h
    by_cases hc : c = '"'
    · subst hc
      rw [escapeQuotes_quote, List.cons_append, List.cons_append,
        parseCsvLineAux_escape, ih rest (cur ++ ['"']) out h]
      simp
    · rw [escapeQuotes_other c cs hc, List.cons_append,
        parseCsvLineAux_inq c _ cur out hc, ih rest (cur ++ [c]) out h]
      simp

theorem joinComma_pair (f g : Str) (fs : List Str) :
    joinComma (f :: g :: fs) = f ++ ',' :: joinComma (g :: fs) := by
  simp [joinComma]

/-- The tokenizer inverts quoting-and-joining, any accumulator. -/
theorem parseCsvLineAux_roundTrip (fields : List Str) (h : fields ≠ []) :
    ∀ out, parseCsvLineAux (joinComma (fields.map renderField)) [] false out =
      out ++ fields := by
  induction fields with
  | nil => exact absurd rfl h
  | cons f fs ih =>
    intro out
    match fs, ih with
    | [], _ =>
      show parseCsvLineAux (joinComma [renderField f]) [] false out = out ++ [f]
      have hj : joinComma [renderField f] = '"' :: (escapeQuotes f ++ '"' :: []) := by
        simp [joinComma, renderField]
      rw [hj, parseCsvLineAux_open, parseCsvLineAux_escaped f [] [] out (by simp),
        parseCsvLineAux_nil]
      simp
    | f2 :: fs2, ih =>
      show parseCsvLineAux (joinComma (renderField f :: (f2 :: fs2).map renderField))
          [] false out = out ++ f :: f2 :: fs2
      have hj : joinComma (renderField f :: (f2 :: fs2).map renderField) =
          '"' :: (escapeQuotes f ++ '"' :: ',' ::
            joinComma ((f2 :: fs2).map renderField)) := by
        rw [show (f2 :: fs2).map renderField =
              renderField f2 :: fs2.map renderField by simp,
          joinComma_pair]
        simp [renderField]
      rw [hj, parseCsvLineAux_open,
        parseCsvLineAux_escaped f _ [] out (by simp),
        show ([] : Str) ++ f = f by simp,
        parseCsvLineAux_comma, ih (by simp) (out ++ [f])]
      simp

/-- C8. The CSV field tokenizer splits only at commas outside double-quote
state: joining arbitrary fields (which may contain commas and quote
characters) as double-quoted CSV fields with `""` escaping and re-parsing
the line recovers exactly the original fields — embedded commas do not
split a quoted field, and each escaped quote becomes one literal quote. -/
theorem claim_C8 (fields : List Str) (h : fields ≠ []) :
    parseCsvLine (joinComma (fields.map renderField)) = fields := by
  simpa using parseCsvLineAux_roundTrip fields h []

/-- Witness for C8 at a concrete input: the line
`"Seattle, WA",98109,"say ""hi""" -ish` (a quoted field with an embedded
comma, a bare field, and a quoted field with escaped quotes). -/
theorem claim_C8_witness :
    ([ ("Seattle, WA").data, ("98109").data, ("say \"hi\"").data ] : List Str) ≠ [] ∧
    parseCsvLine (joinComma ([ ("Seattle, WA").data, ("98109").data,
        ("say \"hi\"").data ].map renderField)) =
      [ ("Seattle, WA").data, ("98109").data, ("say \"hi\"").data ] :=
  ⟨by decide, claim_C8 _ (by decide)⟩

/-! ## Wide-CSV row loop (`loadZillowWideCSV`, server.js lines 86-110)

The loop is modelled on already-tokenized rows (`List Str` per row),
with the header-derived inputs `headerLen` (number of header fields),
`nameIdx`/`typeIdx` (RegionName / RegionType column positions),
`stateIdx` (optional State column) and `dateCols` (positions of the
date columns together with their `YYYY-MM` labels) as parameters.
JavaScript number conversion of a non-empty cell is the parameter
`num : Str → Option ℚ` (`none` = `NaN`). -/

/-- Which index a region entry is stored in. -/
inductive RKind : Type
  | zip : RKind
  | msa : RKind
deriving DecidableEq, Repr

/-- One parsed region row: the object
`{ date, value, state, series }` built at server.js line 107. -/
structure RegionEntry : Type where
  date : Str
  value : ℚ
  state : Option Str
  series : List (Str × ℚ)
deriving DecidableEq, Repr

/-- The observation sweep over the date columns (lines 97-105): a cell
is kept iff it is non-empty and numeric; points are in column order. -/
def rowSeries (num : Str → Option ℚ) (dateCols : List (Nat × Str))
    (row : List Str) : List (Str × ℚ) :=
  dateCols.filterMap (fun dc =>
    let valStr := row.getD dc.1 []
    if valStr ≠ [] then (num valStr).map (fun v => (dc.2, v)) else none)

/-- One iteration of the row loop (lines 88-109): a full-length row with
a usable region name, region-type `zip`/`msa` and at least one valid
observation produces an entry for the corresponding index; everything
else is skipped.  (The local bindings `regionName`, `regionType`,
`series`, `entry` of the source are inlined.) -/
def processRow (num : Str → Option ℚ) (headerLen nameIdx typeIdx : Nat)
    (stateIdx : Option Nat) (dateCols : List (Nat × Str))
    (row : List Str) : Option (RKind × Str × RegionEntry) :=
  if row.length < headerLen then none
  else if trimJS (row.getD nameIdx []) = [] then none
  else if toLowerJS (trimJS (row.getD typeIdx [])) ≠ ("zip").data ∧
      toLowerJS (trimJS (row.getD typeIdx [])) ≠ ("msa").data then none
  else
    ((rowSeries num dateCols row).getLast?).map (fun latest =>
      if toLowerJS (trimJS (row.getD typeIdx [])) = ("zip").data then
        (RKind.zip, trimJS (row.getD nameIdx []),
          ⟨latest.1, latest.2, stateIdx.map (fun si => trimJS (row.getD si [])),
            rowSeries num dateCols row⟩)
      else
        (RKind.msa, toUpperJS (trimJS (row.getD nameIdx [])),
          ⟨latest.1, latest.2, stateIdx.map (fun si => trimJS (row.getD si [])),
            rowSeries num dateCols row⟩))

/-- The whole row loop: fold the rows into the zip and msa maps. -/
def processRows (num : Str → Option ℚ) (headerLen nameIdx typeIdx : Nat)
    (stateIdx : Option Nat) (dateCols : List (Nat × Str))
    (rows : List (List Str)) :
    List (Str × RegionEntry) × List (Str × RegionEntry) :=
  rows.foldl (fun maps row =>
    match processRow num headerLen nameIdx typeIdx stateIdx dateCols row with
    | none => maps
    | some (RKind.zip, k, e) => (mapSet maps.1 k e, maps.2)
    | some (RKind.msa, k, e) => (maps.1, mapSet maps.2 k e)) ([], [])

/-- Keys of an association map. -/
def keysOf {α : Type} (m : List (Str × α)) : List Str := m.map Prod.fst

theorem keysOf_mapSet {α : Type} (m : List (Str × α)) (k : Str) (v : α) :
    keysOf (mapSet m k v) = if m.any (fun p => p.1 = k) then keysOf m
      else keysOf m ++ [k] := by
  induction m with
  | nil => simp [mapSet, keysOf]
  | cons p ps ih =>
    by_cases hp : p.1 = k
    · rw [mapSet, if_pos hp]
      have hany : (p :: ps).any (fun p => p.1 = k) = true := by
        simp [hp]
      rw [if_pos hany]
      simp [keysOf, hp]
    · rw [mapSet, if_neg hp]
      have hany : (p :: ps).any (fun p => p.1 = k) = ps.any (fun p => p.1 = k) := by
        simp [hp]
      rw [hany]
      by_cases hps : ps.any (fun p => p.1 = k)
      · rw [if_pos hps]
        show p.1 :: keysOf (mapSet ps k v) = p.1 :: keysOf ps
        rw [ih, if_pos hps]
      · rw [if_neg hps]
        show p.1 :: keysOf (mapSet ps k v) = (p.1 :: keysOf ps) ++ [k]
        rw [ih, if_neg hps]
        rfl

theorem mem_keysOf_mapSet_self {α : Type} (m : List (Str × α)) (k : Str) (v : α) :
    k ∈ keysOf (mapSet m k v) := by
  rw [keysOf_mapSet]
  by_cases h : m.any (fun p => p.1 = k)
  · rw [if_pos h]
    rcases List.any_eq_true.mp h with ⟨p, hp, he⟩
    have : p.1 = k := by simpa using he
    exact this ▸ List.mem_map_of_mem Prod.fst hp
  · rw [if_neg h]; simp

theorem mem_keysOf_mapSet_mono {α : Type} (m : List (Str × α)) (k k' : Str) (v : α)
    (h : k' ∈ keysOf m) : k' ∈ keysOf (mapSet m k v) := by
  rw [keysOf_mapSet]
  by_cases hh : m.any (fun p => p.1 = k)
  · rwa [if_pos hh]
  · rw [if_neg hh]; exact List.mem_append_left _ h

theorem nodup_keysOf_mapSet {α : Type} (m : List (Str × α)) (k : Str) (v : α)
    (h : (keysOf m).Nodup) : (keysOf (mapSet m k v)).Nodup := by
  rw [keysOf_mapSet]
  by_cases hh : m.any (fun p => p.1 = k)
  · rwa [if_pos hh]
  · rw [if_neg hh]
    have hk : k ∉ keysOf m := by
      intro hmem
      rcases List.mem_map.mp hmem with ⟨p, hp, he⟩
      exact absurd (List.any_eq_true.mpr ⟨p, hp, by simpa using he⟩) hh
    simpa [List.nodup_append] using ⟨h, hk⟩

/-- One step of the `processRows` fold. -/
def stepMaps (num : Str → Option ℚ) (headerLen nameIdx typeIdx : Nat)
    (stateIdx : Option Nat) (dateCols : List (Nat × Str))
    (maps : List (Str × RegionEntry) × List (Str × RegionEntry))
    (row : List Str) :
    List (Str × RegionEntry) × List (Str × RegionEntry) :=
  match processRow num headerLen nameIdx typeIdx stateIdx dateCols row with
  | none => maps
  | some (RKind.zip, k, e) => (mapSet maps.1 k e, maps.2)
  | some (RKind.msa, k, e) => (maps.1, mapSet maps.2 k e)

theorem processRows_eq_foldl (num : Str → Option ℚ)
    (headerLen nameIdx typeIdx : Nat) (stateIdx : Option Nat)
    (dateCols : List (Nat × Str)) (rows : List (List Str)) :
    processRows num headerLen nameIdx typeIdx stateIdx dateCols rows =
      rows.foldl (stepMaps num headerLen nameIdx typeIdx stateIdx dateCols)
        ([], []) := by
  rfl

theorem stepMaps_keys_mono (num : Str → Option ℚ)
    (headerLen nameIdx typeIdx : Nat) (stateIdx : Option Nat)
    (dateCols : List (Nat × Str)) (maps) (row : List Str) (k : Str) :
    (k ∈ keysOf maps.1 →
      k ∈ keysOf (stepMaps num headerLen nameIdx typeIdx stateIdx dateCols maps row).1) ∧
    (k ∈ keysOf maps.2 →
      k ∈ keysOf (stepMaps num headerLen nameIdx typeIdx stateIdx dateCols maps row).2) := by
  unfold stepMaps
  match processRow num headerLen nameIdx typeIdx stateIdx dateCols row with
  | none => exact ⟨id, id⟩
  | some (RKind.zip, k', e) =>
    exact ⟨fun h => mem_keysOf_mapSet_mono _ _ _ _ h, id⟩
  | some (RKind.msa, k', e) =>
    exact ⟨id, fun h => mem_keysOf_mapSet_mono _ _ _ _ h⟩

theorem foldl_keys_mono (num : Str → Option ℚ)
    (headerLen nameIdx typeIdx : Nat) (stateIdx : Option Nat)
    (dateCols : List (Nat × Str)) (rows : List (List Str)) (k : Str) :
    ∀ maps,
    (k ∈ keysOf maps.1 →
      k ∈ keysOf ((rows.foldl (stepMaps num headerLen nameIdx typeIdx stateIdx dateCols) maps)).1) ∧
    (k ∈ keysOf maps.2 →
      k ∈ keysOf ((rows.foldl (stepMaps num headerLen nameIdx typeIdx stateIdx dateCols) maps)).2) := by
  induction rows with
  | nil => intro maps; exact ⟨id, id⟩
  | cons r rs ih =>
    intro maps
    constructor
    · intro h
      exact (ih _).1 ((stepMaps_keys_mono num headerLen nameIdx typeIdx stateIdx dateCols maps r k).1 h)
    · intro h
      exact (ih _).2 ((stepMaps_keys_mono num headerLen nameIdx typeIdx stateIdx dateCols maps r k).2 h)

theorem foldl_keys_nodup (num : Str → Option ℚ)
    (headerLen nameIdx typeIdx : Nat) (stateIdx : Option Nat)
    (dateCols : List (Nat × Str)) (rows : List (List Str)) :
    ∀ maps, (keysOf maps.1).Nodup → (keysOf maps.2).Nodup →
    (keysOf ((rows.foldl (stepMaps num headerLen nameIdx typeIdx stateIdx dateCols) maps)).1).Nodup ∧
    (keysOf ((rows.foldl (stepMaps num headerLen nameIdx typeIdx stateIdx dateCols) maps)).2).Nodup := by
  induction rows with
  | nil => intro maps h1 h2; exact ⟨h1, h2⟩
  | cons r rs ih =>
    intro maps h1 h2
    apply ih
    · unfold stepMaps
      match processRow num headerLen nameIdx typeIdx stateIdx dateCols r with
      | none => exact h1
      | some (RKind.zip, k', e) => exact nodup_keysOf_mapSet _ _ _ h1
      | some (RKind.msa, k', e) => exact h1
    · unfold stepMaps
      match processRow num headerLen nameIdx typeIdx stateIdx dateCols r with
      | none => exact h2
      | some (RKind.zip, k', e) => exact h2
      | some (RKind.msa, k', e) => exact nodup_keysOf_mapSet _ _ _ h2

theorem length_filter_eq_one_of_nodup {l : List Str} {k : Str}
    (nd : l.Nodup) (h : k ∈ l) :
    (l.filter (fun x => x = k)).length = 1 := by
  induction l with
  | nil => cases h
  | cons a t ih =>
    rw [List.nodup_cons] at nd
    rcases List.mem_cons.mp h with heq | ht
    · subst heq
      rw [List.filter_cons_of_pos (by simp)]
      have hnil : t.filter (fun x => x = k) = [] := by
        rw [List.filter_eq_nil_iff]
        intro b hb
        simp only [decide_eq_true_eq]
        intro hbk
        exact nd.1 (hbk ▸ hb)
      simp [hnil]
    · by_cases hak : a = k
      · exact absurd (hak ▸ ht) nd.1
      · rw [List.filter_cons_of_neg (by simp [hak])]
        exact ih nd.2 ht

theorem foldl_mem_of_row (num : Str → Option ℚ)
    (headerLen nameIdx typeIdx : Nat) (stateIdx : Option Nat)
    (dateCols : List (Nat × Str)) (rows : List (List Str))
    (row : List Str) (kind : RKind) (k : Str) (e : RegionEntry) :
    ∀ maps, row ∈ rows →
    processRow num headerLen nameIdx typeIdx stateIdx dateCols row = some (kind, k, e) →
    (kind = RKind.zip →
      k ∈ keysOf ((rows.foldl (stepMaps num headerLen nameIdx typeIdx stateIdx dateCols) maps)).1) ∧
    (kind = RKind.msa →
      k ∈ keysOf ((rows.foldl (stepMaps num headerLen nameIdx typeIdx stateIdx dateCols) maps)).2) := by
  induction rows with
  | nil => intro maps hmem; exact absurd hmem (by simp)
  | cons r rs ih =>
    intro maps hmem hp
    rcases List.mem_cons.mp hmem with heq | htail
    · subst heq
      rw [List.foldl_cons]
      constructor
      · intro hkind; subst hkind
        have hstep : k ∈ keysOf (stepMaps num headerLen nameIdx typeIdx stateIdx dateCols maps row).1 := by
          unfold stepMaps
          rw [hp]
          exact mem_keysOf_mapSet_self _ _ _
        exact (foldl_keys_mono num headerLen nameIdx typeIdx stateIdx dateCols rs k _).1 hstep
      · intro hkind; subst hkind
        have hstep : k ∈ keysOf (stepMaps num headerLen nameIdx typeIdx stateIdx dateCols maps row).2 := by
          unfold stepMaps
          rw [hp]
          exact mem_keysOf_mapSet_self _ _ _
        exact (foldl_keys_mono num headerLen nameIdx typeIdx stateIdx dateCols rs k _).2 hstep
    · rw [List.foldl_cons]
      exact ih _ htail hp

/-- C3 counterexample.  The claim says a data row is dropped *only when
it lacks both* a usable region name *and* a numeric observation.  The
row `Seattle,zip,` (full length, usable region name, type `zip`, empty
observation cell) is dropped by the loop even though it has a usable
region name — even under the most permissive number conversion, which
maps every non-empty cell to a number. -/
theorem claim_C3_counterexample :
    processRow (fun _ => some (1 : ℚ)) 3 0 1 none [(2, ("2022-01").data)]
      [ ("Seattle").data, ("zip").data, [] ] = none ∧
    trimJS ([ ("Seattle").data, ("zip").data, ([] : Str) ].getD 0 []) ≠ [] := by
  constructor
  · decide
  · decide

/-- C3 (amended).  In the wide-CSV row loop, a data row is dropped iff
it is shorter than the header, or lacks a usable (non-empty after trim)
region name, or its region-type is neither `zip` nor `msa`
(case-insensitive), or it has no non-empty numeric observation (these
conditions are disjunctive, not conjunctive as the claim stated).
Every surviving row yields exactly one region entry in the index chosen
by its region-type, keyed by its trimmed region name (upper-cased for
metro keys), carrying precisely the row's observation series. -/
theorem claim_C3 (num : Str → Option ℚ) (headerLen nameIdx typeIdx : Nat)
    (stateIdx : Option Nat) (dateCols : List (Nat × Str)) :
    (∀ row : List Str,
      processRow num headerLen nameIdx typeIdx stateIdx dateCols row = none ↔
        (row.length < headerLen ∨ trimJS (row.getD nameIdx []) = [] ∨
         (toLowerJS (trimJS (row.getD typeIdx [])) ≠ ("zip").data ∧
          toLowerJS (trimJS (row.getD typeIdx [])) ≠ ("msa").data) ∨
         rowSeries num dateCols row = [])) ∧
    (∀ (row : List Str) (kind : RKind) (k : Str) (e : RegionEntry),
      processRow num headerLen nameIdx typeIdx stateIdx dateCols row = some (kind, k, e) →
        e.series = rowSeries num dateCols row ∧
        (kind = RKind.zip → k = trimJS (row.getD nameIdx [])) ∧
        (kind = RKind.msa → k = toUpperJS (trimJS (row.getD nameIdx [])))) ∧
    (∀ (rows : List (List Str)) (row : List Str) (kind : RKind) (k : Str) (e : RegionEntry),
      row ∈ rows →
      processRow num headerLen nameIdx typeIdx stateIdx dateCols row = some (kind, k, e) →
      (kind = RKind.zip →
        ((keysOf (processRows num headerLen nameIdx typeIdx stateIdx dateCols rows).1).filter
          (fun x => x = k)).length = 1) ∧
      (kind = RKind.msa →
        ((keysOf (processRows num headerLen nameIdx typeIdx stateIdx dateCols rows).2).filter
          (fun x => x = k)).length = 1)) := by
  refine ⟨?_, ?_, ?_⟩
  · intro row
    unfold processRow
    by_cases h1 : row.length < headerLen
    · rw [if_pos h1]
      exact ⟨fun _ => Or.inl h1, fun _ => rfl⟩
    · rw [if_neg h1]
      by_cases h2 : trimJS (row.getD nameIdx []) = []
      · rw [if_pos h2]
        exact ⟨fun _ => Or.inr (Or.inl h2), fun _ => rfl⟩
      · rw [if_neg h2]
        by_cases h3 : toLowerJS (trimJS (row.getD typeIdx [])) ≠ ("zip").data ∧
            toLowerJS (trimJS (row.getD typeIdx [])) ≠ ("msa").data
        · rw [if_pos h3]
          exact ⟨fun _ => Or.inr (Or.inr (Or.inl h3)), fun _ => rfl⟩
        · rw [if_neg h3]
          constructor
          · intro hnone
            rcases hs : (rowSeries num dateCols row).getLast? with _ | latest
            · exact Or.inr (Or.inr (Or.inr (List.getLast?_eq_none_iff.mp hs)))
            · rw [hs, Option.map_some'] at hnone
              cases hnone
          · intro hdisj
            have hser : rowSeries num dateCols row = [] := by
              rcases hdisj with h | h | h | h
              · exact absurd h h1
              · exact absurd h h2
              · exact absurd h h3
              · exact h
            rw [hser]
            rfl
  · intro row kind k e hp
    unfold processRow at hp
    by_cases h1 : row.length < headerLen
    · rw [if_pos h1] at hp; cases hp
    · rw [if_neg h1] at hp
      by_cases h2 : trimJS (row.getD nameIdx []) = []
      · rw [if_pos h2] at hp; cases hp
      · rw [if_neg h2] at hp
        by_cases h3 : toLowerJS (trimJS (row.getD typeIdx [])) ≠ ("zip").data ∧
            toLowerJS (trimJS (row.getD typeIdx [])) ≠ ("msa").data
        · rw [if_pos h3] at hp; cases hp
        · rw [if_neg h3] at hp
          rcases hs : (rowSeries num dateCols row).getLast? with _ | latest <;>
            rw [hs] at hp
          · cases hp
          · rw [Option.map_some', Option.some.injEq] at hp
            by_cases h4 : toLowerJS (trimJS (row.getD typeIdx [])) = ("zip").data
            · rw [if_pos h4] at hp
              rw [Prod.mk.injEq, Prod.mk.injEq] at hp
              obtain ⟨hk, hn, he⟩ := hp
              subst hk; subst hn; subst he
              refine ⟨rfl, fun _ => rfl, fun hcontra => ?_⟩
              cases hcontra
            · rw [if_neg h4] at hp
              rw [Prod.mk.injEq, Prod.mk.injEq] at hp
              obtain ⟨hk, hn, he⟩ := hp
              subst hk; subst hn; subst he
              refine ⟨rfl, fun hcontra => ?_, fun _ => rfl⟩
              cases hcontra
  · intro rows row kind k e hmem hp
    have hmemk := foldl_mem_of_row num headerLen nameIdx typeIdx stateIdx dateCols
      rows row kind k e ([], []) hmem hp
    have hnd := foldl_keys_nodup num headerLen nameIdx typeIdx stateIdx dateCols
      rows ([], []) (by simp [keysOf]) (by simp [keysOf])
    rw [processRows_eq_foldl]
    exact ⟨fun hkind => length_filter_eq_one_of_nodup hnd.1 (hmemk.1 hkind),
      fun hkind => length_filter_eq_one_of_nodup hnd.2 (hmemk.2 hkind)⟩

/-- Witness for C3 at a concrete one-row input: the row
`Seattle,zip,1` yields exactly one zip entry keyed `Seattle`. -/
theorem claim_C3_witness :
    processRow (fun _ => some (7 : ℚ)) 3 0 1 none [(2, ("2022-01").data)]
        [ ("Seattle").data, ("zip").data, ("1").data ] =
      some (RKind.zip, ("Seattle").data,
        ⟨("2022-01").data, 7, none, [(("2022-01").data, 7)]⟩) ∧
    ((keysOf (processRows (fun _ => some (7 : ℚ)) 3 0 1 none [(2, ("2022-01").data)]
        [[ ("Seattle").data, ("zip").data, ("1").data ]]).1).filter
      (fun x => x = ("Seattle").data)).length = 1 := by
  have hp : processRow (fun _ => some (7 : ℚ)) 3 0 1 none [(2, ("2022-01").data)]
      [ ("Seattle").data, ("zip").data, ("1").data ] =
      some (RKind.zip, ("Seattle").data,
        ⟨("2022-01").data, 7, none, [(("2022-01").data, 7)]⟩) := by decide
  refine ⟨hp, ?_⟩
  exact ((claim_C3 (fun _ => some (7 : ℚ)) 3 0 1 none [(2, ("2022-01").data)]).2.2
    [[ ("Seattle").data, ("zip").data, ("1").data ]]
    [ ("Seattle").data, ("zip").data, ("1").data ] RKind.zip ("Seattle").data
    ⟨("2022-01").data, 7, none, [(("2022-01").data, 7)]⟩
    (by simp) hp).1 rfl

/-! ## Levenshtein distance (inline arrow function, server.js lines 193 and 702)

`const levenshtein = (a,b) => { const m = [...Array(b.length+1)].map((_,i)=>i);
for (let i=1;i<=a.length;i++){ let prev=i-1; m[0]=i; for(let j=1;j<=b.length;j++){
const tmp=m[j]; m[j]=a[i-1]===b[j-1]?prev:Math.min(prev,m[j-1],m[j])+1; prev=tmp;} }
return m[b.length]; }`

The single-row Wagner-Fischer sweep is embedded functionally: `levCell`
is the cell update, `levRowAux` the inner `j` loop (with `diag` = `prev`,
`left` = the freshly written `m[j-1]`, `up :: old` = the old row tail),
`nextRow` one outer iteration, `levRows` the outer `i` loop. -/

def levCell (ai bj : Char) (diag left up : Nat) : Nat :=
  if ai = bj then diag else Nat.min diag (Nat.min left up) + 1

def levRowAux (ai : Char) : Str → Nat → Nat → List Nat → List Nat
  | [], _, _, _ => []
  | _ :: _, _, _, [] => []
  | bj :: bs, diag, left, up :: old =>
    levCell ai bj diag left up :: levRowAux ai bs up (levCell ai bj diag left up) old

def nextRow (ai : Char) (b : Str) (newM0 : Nat) (row : List Nat) : List Nat :=
  match row with
  | [] => [newM0]
  | m0 :: rest => newM0 :: levRowAux ai b m0 newM0 rest

def levRows (b : Str) : Str → Nat → List Nat → List Nat
  | [], _, row => row
  | c :: cs, i, row => levRows b cs (i + 1) (nextRow c b (i + 1) row)

/-- `levenshtein(a, b)` of server.js (lines 193 and 702). -/
def levenshtein (a b : Str) : Nat :=
  (levRows b a 0 (List.range (b.length + 1))).getLastD 0

/-- Spec-side: the textbook Levenshtein recurrence, peeling leading
characters (unit costs; equal heads cost nothing). -/
def levFront : Str → Str → Nat
  | [], b => b.length
  | a :: as, [] => (a :: as).length
  | a :: as, b :: bs =>
    if a = b then levFront as bs
    else 1 + Nat.min (levFront as (b :: bs))
      (Nat.min (levFront (a :: as) bs) (levFront as bs))
  termination_by a b => a.length + b.length

/-- Spec-side: the Levenshtein distance via the classic prefix matrix
`D(i,j)` — implemented by running the recurrence on the reversed lists,
so that `levSpecDist` satisfies the textbook clauses on *final*
characters (`levSpecDist_snoc_snoc` below). -/
def levSpecDist (a b : Str) : Nat := levFront a.reverse b.reverse

theorem levFront_nil (b : Str) : levFront [] b = b.length := by
  rw [levFront.eq_def]

theorem levFront_cons_nil (a : Char) (as : Str) :
    levFront (a :: as) [] = (a :: as).length := by
  rw [levFront.eq_def]

theorem levFront_cons_cons (a : Char) (as : Str) (b : Char) (bs : Str) :
    levFront (a :: as) (b :: bs) =
      if a = b then levFront as bs
      else 1 + Nat.min (levFront as (b :: bs))
        (Nat.min (levFront (a :: as) bs) (levFront as bs)) := by
  rw [levFront.eq_def]

theorem levFront_nil_right (a : Str) : levFront a [] = a.length := by
  cases a with
  | nil => rw [levFront_nil]
  | cons x xs => rw [levFront_cons_nil]

theorem levSpecDist_nil_left (v : Str) : levSpecDist [] v = v.length := by
  rw [levSpecDist, List.reverse_nil, levFront_nil, List.length_reverse]

theorem levSpecDist_nil_right (u : Str) : levSpecDist u [] = u.length := by
  rw [levSpecDist, List.reverse_nil, levFront_nil_right, List.length_reverse]

/-- The classic Wagner-Fischer clause on final characters. -/
theorem levSpecDist_snoc_snoc (u v : Str) (x y : Char) :
    levSpecDist (u ++ [x]) (v ++ [y]) =
      if x = y then levSpecDist u v
      else 1 + Nat.min (levSpecDist u (v ++ [y]))
        (Nat.min (levSpecDist (u ++ [x]) v) (levSpecDist u v)) := by
  have hu : (u ++ [x]).reverse = x :: u.reverse := List.reverse_concat' u x
  have hv : (v ++ [y]).reverse = y :: v.reverse := List.reverse_concat' v y
  rw [levSpecDist, hu, hv, levFront_cons_cons]
  rw [show levFront u.reverse (y :: v.reverse) = levSpecDist u (v ++ [y]) by
    rw [levSpecDist, hv]]
  rw [show levFront (x :: u.reverse) v.reverse = levSpecDist (u ++ [x]) v by
    rw [levSpecDist, hu]]
  rw [show levFront u.reverse v.reverse = levSpecDist u v by rw [levSpecDist]]

/-- The non-empty prefixes of `v ++ bs` that extend `v`, in order. -/
def prefAcc (v : Str) : Str → List Str
  | [] => []
  | c :: cs => (v ++ [c]) :: prefAcc (v ++ [c]) cs

/-- The inner-loop invariant: if the old row holds the distances from
`u` to every prefix, one sweep produces the distances from `u ++ [ai]`. -/
theorem levRowAux_spec (ai : Char) (u : Str) : ∀ (bs v : Str),
    levRowAux ai bs (levSpecDist u v) (levSpecDist (u ++ [ai]) v)
      ((prefAcc v bs).map (fun p => levSpecDist u p)) =
      (prefAcc v bs).map (fun p => levSpecDist (u ++ [ai]) p) := by
  intro bs
  induction bs with
  | nil => intro v; rfl
  | cons bj bs ih =>
    intro v
    show levCell ai bj (levSpecDist u v) (levSpecDist (u ++ [ai]) v)
        (levSpecDist u (v ++ [bj])) ::
      levRowAux ai bs (levSpecDist u (v ++ [bj]))
        (levCell ai bj (levSpecDist u v) (levSpecDist (u ++ [ai]) v)
          (levSpecDist u (v ++ [bj])))
        ((prefAcc (v ++ [bj]) bs).map (fun p => levSpecDist u p)) =
      levSpecDist (u ++ [ai]) (v ++ [bj]) ::
        (prefAcc (v ++ [bj]) bs).map (fun p => levSpecDist (u ++ [ai]) p)
    have hcell : levCell ai bj (levSpecDist u v) (levSpecDist (u ++ [ai]) v)
        (levSpecDist u (v ++ [bj])) = levSpecDist (u ++ [ai]) (v ++ [bj]) := by
      rw [levSpecDist_snoc_snoc, levCell]
      by_cases h : ai = bj
      · rw [if_pos h, if_pos h]
      · rw [if_neg h, if_neg h]
        have hmin : ∀ x y z : Nat,
            Nat.min x (Nat.min y z) + 1 = 1 + Nat.min z (Nat.min y x) := by
          intro x y z
          simp only [Nat.min_def]
          split_ifs <;> omega
        exact hmin _ _ _
    rw [hcell, ih (v ++ [bj])]

/-- The row of distances from `u` to every prefix of `b` (including the
empty prefix): the contents of `m` after processing `u`. -/
def fullRow (u b : Str) : List Nat :=
  levSpecDist u [] :: (prefAcc [] b).map (fun p => levSpecDist u p)

theorem nextRow_fullRow (ai : Char) (b u : Str) :
    nextRow ai b (u.length + 1) (fullRow u b) = fullRow (u ++ [ai]) b := by
  have h2 : levSpecDist (u ++ [ai]) [] = u.length + 1 := by
    rw [levSpecDist_nil_right]; simp
  show (u.length + 1) :: levRowAux ai b (levSpecDist u []) (u.length + 1)
      ((prefAcc [] b).map (fun p => levSpecDist u p)) =
    levSpecDist (u ++ [ai]) [] :: (prefAcc [] b).map (fun p => levSpecDist (u ++ [ai]) p)
  rw [← h2]
  exact congrArg _ (levRowAux_spec ai u b [])

theorem levRows_fullRow (b : Str) : ∀ (cs u : Str),
    levRows b cs u.length (fullRow u b) = fullRow (u ++ cs) b := by
  intro cs
  induction cs with
  | nil => intro u; simp [levRows]
  | cons c cs ih =>
    intro u
    show levRows b cs (u.length + 1) (nextRow c b (u.length + 1) (fullRow u b)) =
      fullRow (u ++ c :: cs) b
    rw [nextRow_fullRow]
    have : u.length + 1 = (u ++ [c]).length := by simp
    rw [this, ih (u ++ [c])]
    simp

theorem prefAcc_map_len (f : Str → Nat) (hf : ∀ p, f p = p.length) :
    ∀ (bs v : Str), (prefAcc v bs).map f = List.range' (v.length + 1) bs.length := by
  intro bs
  induction bs with
  | nil => intro v; rfl
  | cons c cs ih =>
    intro v
    show f (v ++ [c]) :: (prefAcc (v ++ [c]) cs).map f =
      List.range' (v.length + 1) (cs.length + 1)
    rw [List.range'_succ, hf, ih (v ++ [c])]
    simp

theorem range_eq_fullRow_nil (b : Str) :
    List.range (b.length + 1) = fullRow [] b := by
  rw [fullRow, levSpecDist_nil_right,
    prefAcc_map_len (fun p => levSpecDist [] p) levSpecDist_nil_left b []]
  rw [List.range_eq_range', List.range'_succ]
  rfl

theorem getLastD_map_prefAcc (f : Str → Nat) :
    ∀ (bs v : Str) (x : Nat), bs ≠ [] →
      (((prefAcc v bs).map f).getLastD x) = f (v ++ bs) := by
  intro bs
  induction bs with
  | nil => intro v x h; exact absurd rfl h
  | cons c cs ih =>
    intro v x h
    show ((f (v ++ [c]) :: (prefAcc (v ++ [c]) cs).map f).getLastD x) = f (v ++ c :: cs)
    rw [List.getLastD_cons]
    cases cs with
    | nil => simp [prefAcc]
    | cons c2 cs2 =>
      rw [ih (v ++ [c]) (f (v ++ [c])) (by simp)]
      simp

/-- The JavaScript one-row dynamic program computes exactly
the textbook Levenshtein distance. -/
theorem levenshtein_eq_levSpecDist (a b : Str) :
    levenshtein a b = levSpecDist a b := by
  rw [levenshtein, range_eq_fullRow_nil]
  have h0 : (0 : Nat) = ([] : Str).length := rfl
  rw [h0, levRows_fullRow b a []]
  rw [List.nil_append, fullRow, List.getLastD_cons]
  cases b with
  | nil =>
    show (([] : List Nat).getLastD (levSpecDist a [])) = levSpecDist a []
    rfl
  | cons c cs =>
    rw [getLastD_map_prefAcc (fun p => levSpecDist a p) (c :: cs) [] _ (by simp)]
    rfl

/-! ## Fuzzy metro stage (server.js lines 700-711; same loop at 193-203)

`let bestDist = Infinity; for (const key of msaMap.keys()) { if
(key.endsWith(', ' + ST)) { const cityPart = key.split(',')[0]; const
dist = levenshtein(cityPart, targetCityUpper); if (dist < bestDist) {
bestDist = dist; bestKey = key; } } } if (bestDist > 3) bestKey = null;`

`Infinity`/`null` are modelled by a `none` accumulator. -/

def fuzzyScan (target stU : Str) : List Str → Option (Str × Nat) → Option (Str × Nat)
  | [], acc => acc
  | k :: ks, acc =>
    if endsWithCommaST k stU then
      match acc with
      | none => fuzzyScan target stU ks (some (k, levenshtein (cityPartOf k) target))
      | some (bk, bd) =>
        if levenshtein (cityPartOf k) target < bd then
          fuzzyScan target stU ks (some (k, levenshtein (cityPartOf k) target))
        else fuzzyScan target stU ks (some (bk, bd))
    else fuzzyScan target stU ks acc

/-- The fuzzy stage's final answer: the scan winner if its distance is
at most 3, nothing otherwise (`if (bestDist > 3) bestKey = null`). -/
def fuzzyAccept (target stU : Str) (keys : List Str) : Option Str :=
  match fuzzyScan target stU keys none with
  | none => none
  | some (bk, bd) => if bd ≤ 3 then some bk else none

theorem fuzzyScan_nil (target stU : Str) (acc : Option (Str × Nat)) :
    fuzzyScan target stU [] acc = acc := rfl

theorem fuzzyScan_cons_skip (target stU k : Str) (ks : List Str)
    (acc : Option (Str × Nat)) (h : endsWithCommaST k stU = false) :
    fuzzyScan target stU (k :: ks) acc = fuzzyScan target stU ks acc := by
  rw [fuzzyScan.eq_def]
  dsimp only
  rw [h]
  simp

theorem fuzzyScan_cons_none (target stU k : Str) (ks : List Str)
    (h : endsWithCommaST k stU = true) :
    fuzzyScan target stU (k :: ks) none =
      fuzzyScan target stU ks (some (k, levenshtein (cityPartOf k) target)) := by
  rw [fuzzyScan.eq_def]
  dsimp only
  rw [h]
  simp

theorem fuzzyScan_cons_lt (target stU k bk : Str) (ks : List Str) (bd : Nat)
    (h : endsWithCommaST k stU = true)
    (hlt : levenshtein (cityPartOf k) target < bd) :
    fuzzyScan target stU (k :: ks) (some (bk, bd)) =
      fuzzyScan target stU ks (some (k, levenshtein (cityPartOf k) target)) := by
  rw [fuzzyScan.eq_def]
  dsimp only
  rw [h]
  simp only [if_true]
  rw [if_pos hlt]

theorem fuzzyScan_cons_ge (target stU k bk : Str) (ks : List Str) (bd : Nat)
    (h : endsWithCommaST k stU = true)
    (hge : ¬ levenshtein (cityPartOf k) target < bd) :
    fuzzyScan target stU (k :: ks) (some (bk, bd)) =
      fuzzyScan target stU ks (some (bk, bd)) := by
  rw [fuzzyScan.eq_def]
  dsimp only
  rw [h]
  simp only [if_true]
  rw [if_neg hge]

/-- Invariant of the fuzzy scan: the result is `none` exactly when the
accumulator was empty and no key passes the state filter; a `some`
result is either the original accumulator or a passing key at its own
distance, it is minimal among all passing keys of the scanned list, and
it never exceeds the accumulator's distance. -/
theorem fuzzyScan_spec (target stU : Str) : ∀ (ks : List Str) (acc : Option (Str × Nat)),
    (fuzzyScan target stU ks acc = none ↔
      (acc = none ∧ ∀ k ∈ ks, endsWithCommaST k stU = false)) ∧
    (∀ bk bd, fuzzyScan target stU ks acc = some (bk, bd) →
      (acc = some (bk, bd) ∨
        (bk ∈ ks ∧ endsWithCommaST bk stU = true ∧
          bd = levenshtein (cityPartOf bk) target)) ∧
      (∀ k ∈ ks, endsWithCommaST k stU = true →
        bd ≤ levenshtein (cityPartOf k) target) ∧
      (∀ bk0 bd0, acc = some (bk0, bd0) → bd ≤ bd0)) := by
  intro ks
  induction ks with
  | nil =>
    intro acc
    refine ⟨⟨fun h => ⟨h, fun k hk => absurd hk (by simp)⟩, fun h => h.1⟩, ?_⟩
    intro bk bd h
    rw [fuzzyScan_nil] at h
    refine ⟨Or.inl h, fun k hk => absurd hk (by simp), ?_⟩
    intro bk0 bd0 h0
    rw [h0, Option.some.injEq, Prod.mk.injEq] at h
    exact le_of_eq h.2.symm
  | cons k ks ih =>
    intro acc
    by_cases hk : endsWithCommaST k stU = true
    · cases acc with
      | none =>
        rw [fuzzyScan_cons_none target stU k ks hk]
        have hrec := ih (some (k, levenshtein (cityPartOf k) target))
        constructor
        · constructor
          · intro h
            obtain ⟨hcontra, _⟩ := hrec.1.mp h
            cases hcontra
          · rintro ⟨_, hall⟩
            exact absurd (hall k (by simp)) (by simp [hk])
        · intro bk bd h
          obtain ⟨horig, hmin, hacc⟩ := hrec.2 bk bd h
          have hbdk : bd ≤ levenshtein (cityPartOf k) target := hacc _ _ rfl
          refine ⟨?_, ?_, ?_⟩
          · rcases horig with heq | ⟨hmem, hend, hdd⟩
            · rw [Option.some.injEq, Prod.mk.injEq] at heq
              right
              refine ⟨?_, ?_, ?_⟩
              · rw [← heq.1]; simp
              · rw [← heq.1]; exact hk
              · rw [← heq.1, ← heq.2]
            · exact Or.inr ⟨List.mem_cons_of_mem _ hmem, hend, hdd⟩
          · intro k' hk' hend'
            rcases List.mem_cons.mp hk' with heq | htail
            · rw [heq]; exact hbdk
            · exact hmin k' htail hend'
          · intro bk0 bd0 h0
            cases h0
      | some acc0 =>
        obtain ⟨bk0, bd0⟩ := acc0
        by_cases hlt : levenshtein (cityPartOf k) target < bd0
        · rw [fuzzyScan_cons_lt target stU k bk0 ks bd0 hk hlt]
          have hrec := ih (some (k, levenshtein (cityPartOf k) target))
          constructor
          · constructor
            · intro h
              obtain ⟨hcontra, _⟩ := hrec.1.mp h
              cases hcontra
            · rintro ⟨hcontra, _⟩
              cases hcontra
          · intro bk bd h
            obtain ⟨horig, hmin, hacc⟩ := hrec.2 bk bd h
            have hbdk : bd ≤ levenshtein (cityPartOf k) target := hacc _ _ rfl
            refine ⟨?_, ?_, ?_⟩
            · rcases horig with heq | ⟨hmem, hend, hdd⟩
              · rw [Option.some.injEq, Prod.mk.injEq] at heq
                right
                refine ⟨?_, ?_, ?_⟩
                · rw [← heq.1]; simp
                · rw [← heq.1]; exact hk
                · rw [← heq.1, ← heq.2]
              · exact Or.inr ⟨List.mem_cons_of_mem _ hmem, hend, hdd⟩
            · intro k' hk' hend'
              rcases List.mem_cons.mp hk' with heq | htail
              · rw [heq]; exact hbdk
              · exact hmin k' htail hend'
            · intro bk1 bd1 h1
              rw [Option.some.injEq, Prod.mk.injEq] at h1
              have : bd ≤ levenshtein (cityPartOf k) target := hbdk
              omega
        · rw [fuzzyScan_cons_ge target stU k bk0 ks bd0 hk hlt]
          have hrec := ih (some (bk0, bd0))
          constructor
          · constructor
            · intro h
              obtain ⟨hcontra, _⟩ := hrec.1.mp h
              cases hcontra
            · rintro ⟨hcontra, _⟩
              cases hcontra
          · intro bk bd h
            obtain ⟨horig, hmin, hacc⟩ := hrec.2 bk bd h
            have hbd0 : bd ≤ bd0 := hacc _ _ rfl
            refine ⟨?_, ?_, ?_⟩
            · rcases horig with heq | ⟨hmem, hend, hdd⟩
              · exact Or.inl heq
              · exact Or.inr ⟨List.mem_cons_of_mem _ hmem, hend, hdd⟩
            · intro k' hk' hend'
              rcases List.mem_cons.mp hk' with heq | htail
              · rw [heq]; omega
              · exact hmin k' htail hend'
            · intro bk1 bd1 h1
              rw [Option.some.injEq, Prod.mk.injEq] at h1
              omega
    · have hkf : endsWithCommaST k stU = false := by
        rcases Bool.eq_false_or_eq_true (endsWithCommaST k stU) with h | h
        · exact absurd h hk
        · exact h
      rw [fuzzyScan_cons_skip target stU k ks acc hkf]
      have hrec := ih acc
      constructor
      · constructor
        · intro h
          obtain ⟨ha, hall⟩ := hrec.1.mp h
          refine ⟨ha, ?_⟩
          intro k' hk'
          rcases List.mem_cons.mp hk' with heq | htail
          · rw [heq]; exact hkf
          · exact hall k' htail
        · rintro ⟨ha, hall⟩
          exact hrec.1.mpr ⟨ha, fun k' hk' => hall k' (List.mem_cons_of_mem _ hk')⟩
      · intro bk bd h
        obtain ⟨horig, hmin, hacc⟩ := hrec.2 bk bd h
        refine ⟨?_, ?_, ?_⟩
        · rcases horig with heq | ⟨hmem, hend, hdd⟩
          · exact Or.inl heq
          · exact Or.inr ⟨List.mem_cons_of_mem _ hmem, hend, hdd⟩
        · intro k' hk' hend'
          rcases List.mem_cons.mp hk' with heq | htail
          · rw [heq] at hend'
            rw [hend'] at hkf
            cases hkf
          · exact hmin k' htail hend'
        · exact hacc

/-- C4. The fuzzy metro stage computes the Levenshtein distance (the
JavaScript DP equals the textbook recurrence `levSpecDist`) from the
upper-cased extracted city name to the city portion of every metro key
ending in `, ST` for the extracted state, and accepts the
minimum-distance candidate if and only if that minimum distance is ≤ 3:
a `some` answer is a state-filtered key of minimal distance with
distance ≤ 3, and a `none` answer means every state-filtered candidate
has distance > 3 (or none exists). -/
theorem claim_C4 :
    (∀ a b : Str, levenshtein a b = levSpecDist a b) ∧
    (∀ (city st : Str) (keys : List Str) (k : Str),
      fuzzyAccept (toUpperJS city) (toUpperJS st) keys = some k →
        k ∈ keys ∧ endsWithCommaST k (toUpperJS st) = true ∧
        levSpecDist (cityPartOf k) (toUpperJS city) ≤ 3 ∧
        ∀ k' ∈ keys, endsWithCommaST k' (toUpperJS st) = true →
          levSpecDist (cityPartOf k) (toUpperJS city) ≤
            levSpecDist (cityPartOf k') (toUpperJS city)) ∧
    (∀ (city st : Str) (keys : List Str),
      fuzzyAccept (toUpperJS city) (toUpperJS st) keys = none →
        ∀ k' ∈ keys, endsWithCommaST k' (toUpperJS st) = true →
          3 < levSpecDist (cityPartOf k') (toUpperJS city)) := by
  refine ⟨levenshtein_eq_levSpecDist, ?_, ?_⟩
  · intro city st keys k hacc
    rw [fuzzyAccept] at hacc
    rcases hs : fuzzyScan (toUpperJS city) (toUpperJS st) keys none with _ | ⟨bk, bd⟩ <;>
      rw [hs] at hacc <;> dsimp only at hacc
    · cases hacc
    · by_cases h3 : bd ≤ 3
      · rw [if_pos h3, Option.some.injEq] at hacc
        subst hacc
        obtain ⟨horig, hmin, _⟩ :=
          (fuzzyScan_spec (toUpperJS city) (toUpperJS st) keys none).2 bk bd hs
        rcases horig with hcontra | ⟨hmem, hend, hdd⟩
        · cases hcontra
        · rw [hdd, levenshtein_eq_levSpecDist] at h3
          refine ⟨hmem, hend, h3, ?_⟩
          intro k' hk' hend'
          have := hmin k' hk' hend'
          rw [hdd, levenshtein_eq_levSpecDist, levenshtein_eq_levSpecDist] at this
          exact this
      · rw [if_neg h3] at hacc
        cases hacc
  · intro city st keys hacc
    rw [fuzzyAccept] at hacc
    rcases hs : fuzzyScan (toUpperJS city) (toUpperJS st) keys none with _ | ⟨bk, bd⟩ <;>
      rw [hs] at hacc <;> dsimp only at hacc
    · obtain ⟨_, hall⟩ := (fuzzyScan_spec (toUpperJS city) (toUpperJS st) keys none).1.mp hs
      intro k' hk' hend'
      rw [hall k' hk'] at hend'
      cases hend'
    · by_cases h3 : bd ≤ 3
      · rw [if_pos h3] at hacc
        cases hacc
      · obtain ⟨_, hmin, _⟩ :=
          (fuzzyScan_spec (toUpperJS city) (toUpperJS st) keys none).2 bk bd hs
        intro k' hk' hend'
        have := hmin k' hk' hend'
        rw [levenshtein_eq_levSpecDist] at this
        omega

/-- Witness for C4 at the spec's concrete examples: the misspelled
`San Fransisco` fuzzy-resolves to `SAN FRANCISCO, CA` (distance 1 ≤ 3)
while `Zzzzyx` does not fuzzy-resolve against any `, CA` candidate
(distance > 3). -/
theorem claim_C4_witness :
    fuzzyAccept (toUpperJS (("San Fransisco").data)) (toUpperJS (("ca").data))
        [ ("SAN FRANCISCO, CA").data ] = some (("SAN FRANCISCO, CA").data) ∧
    levSpecDist (cityPartOf (("SAN FRANCISCO, CA").data))
        (toUpperJS (("San Fransisco").data)) ≤ 3 ∧
    fuzzyAccept (toUpperJS (("Zzzzyx").data)) (toUpperJS (("CA").data))
        [ ("SAN FRANCISCO, CA").data ] = none ∧
    3 < levSpecDist (cityPartOf (("SAN FRANCISCO, CA").data))
        (toUpperJS (("Zzzzyx").data)) := by
  have h1 : fuzzyAccept (toUpperJS (("San Fransisco").data)) (toUpperJS (("ca").data))
      [ ("SAN FRANCISCO, CA").data ] = some (("SAN FRANCISCO, CA").data) := by decide
  have h2 : fuzzyAccept (toUpperJS (("Zzzzyx").data)) (toUpperJS (("CA").data))
      [ ("SAN FRANCISCO, CA").data ] = none := by decide
  exact ⟨h1, (claim_C4.2.1 _ _ _ _ h1).2.2.1, h2,
    claim_C4.2.2 _ _ _ h2 (("SAN FRANCISCO, CA").data) (by decide) (by decide)⟩


/-! ## Address parsing regexes (server.js lines 273-277, 650, 684)

JavaScript regex matching is leftmost-first: the engine tries each start
position in order.  The three patterns used by the resolver are embedded
as explicit scans with the same boundary semantics (`\b` relative to
`[A-Za-z0-9_]`). -/

/-- `\b(\d{5})(?:-\d{4})?\b` can match at a position iff five digits
start there and the sixth character (if any) is not a word character:
a following `-` satisfies the trailing boundary whether or not four
digits follow, and the optional group never changes the captured five
digits. -/
def zipAt (l : Str) : Bool :=
  (l.take 5).length = 5 && (l.take 5).all isDigitJS &&
    (match l.drop 5 with
     | [] => true
     | c :: _ => !isWordChar c)

/-- Leftmost scan for the zip pattern; `prev` is the character before
the current position (for the left word boundary). -/
def zipScan : Option Char → Str → Option Str
  | _, [] => none
  | prev, c :: rest =>
    if (match prev with
        | none => true
        | some p => !isWordChar p) && zipAt (c :: rest) then
      some ((c :: rest).take 5)
    else zipScan (some c) rest

/-- `extractZip(address)` (server.js lines 273-277): first capture of
`\b(\d{5})(?:-\d{4})?\b`. -/
def extractZip (address : Str) : Option Str := zipScan none address

/-- Tail of the city/state regex after the comma:
`\s*([A-Za-z]{2})\s+\d{5}` (the `i` flag makes `[A-Z]` any letter).
Greedy `\s*`/`\s+` only succeed at the maximal whitespace runs because
the tokens that follow (letters, digits) are not whitespace. -/
def matchTailCS (after : Str) : Option Str :=
  match after.drop ((after.takeWhile isSpaceJS).length) with
  | a :: b :: r2 =>
    if isLetterJS a && isLetterJS b then
      if ((r2.takeWhile isSpaceJS).length ≥ 1) &&
          ((r2.drop ((r2.takeWhile isSpaceJS).length)).take 5).length = 5 &&
          ((r2.drop ((r2.takeWhile isSpaceJS).length)).take 5).all isDigitJS then
        some [a, b]
      else none
    else none
  | _ => none

/-- One attempt of `([^,]+),\s*([A-Z]{2})\s+\d{5}` (flag `i`) at a fixed
start: the greedy `[^,]+` must run exactly to the next comma (a shorter
run would have to match `,` against a non-comma character). -/
def tryCS (l : Str) : Option (Str × Str) :=
  if l.takeWhile (fun c => c ≠ ',') = [] then none
  else
    match l.drop ((l.takeWhile (fun c => c ≠ ',')).length) with
    | c :: after =>
      if c = ',' then
        (matchTailCS after).map (fun st => (l.takeWhile (fun c => c ≠ ','), st))
      else none
    | [] => none

/-- Leftmost match of `([^,]+),\s*([A-Z]{2})\s+\d{5}` (flag `i`) over
the address (server.js line 650): `(city run, two letters)`. -/
def cityStateScan : Str → Option (Str × Str)
  | [] => none
  | c :: rest =>
    match tryCS (c :: rest) with
    | some r => some r
    | none => cityStateScan rest

/-- `\b([A-Z]{2})\b` can match at a position iff two uppercase letters
start there and the next character (if any) is not a word character. -/
def twoUpperAt (l : Str) : Bool :=
  match l with
  | a :: b :: rest =>
    isUpperAZ a && isUpperAZ b &&
      (match rest with
       | [] => true
       | c :: _ => !isWordChar c)
  | _ => false

/-- Leftmost scan for `\b([A-Z]{2})\b` (server.js lines 174, 684). -/
def twoLetterScan : Option Char → Str → Option Str
  | _, [] => none
  | prev, c :: rest =>
    if (match prev with
        | none => true
        | some p => !isWordChar p) && twoUpperAt (c :: rest) then
      some ((c :: rest).take 2)
    else twoLetterScan (some c) rest

/-! ## Metro inference block (server.js lines 688-735)

The block receives the inferred city and state and the metro keys; the
geocoder is the oracle pair `geoAddr` (result of `geocode(address)`,
`none` when no API key is configured or the geocode failed) and
`geoKey` (result of `geocode(key)` per candidate key).  Distances live
in an arbitrary linearly ordered type standing for JavaScript's finite
doubles (`Infinity` = the `none` accumulator); the display rounding
`+nearestMiles.toFixed(1)` is not modelled. -/

/-- The exact/startsWith loop (lines 692-699): an exactly equal city
part wins immediately (`break`); otherwise the first `startsWith`
candidate is remembered while scanning on. -/
def prefixScan (target stU : Str) : List Str → Option Str → Option Str
  | [], acc => acc
  | k :: ks, acc =>
    if endsWithCommaST k stU then
      if cityPartOf k = target then some k
      else if acc = none && startsWithJS (cityPartOf k) target then
        prefixScan target stU ks (some k)
      else prefixScan target stU ks acc
    else prefixScan target stU ks acc

/-- The nearest-metro loop (lines 713-729): geocode each same-state
candidate, skip failures, keep the strictly closest. -/
def nearestScan {Pt d : Type} [LinearOrder d] (dist : Pt → Pt → d) (addrLoc : Pt)
    (geoKey : Str → Option Pt) : List Str → Option (Str × d) → Option (Str × d)
  | [], acc => acc
  | k :: ks, acc =>
    match geoKey k with
    | none => nearestScan dist addrLoc geoKey ks acc
    | some cityLoc =>
      match acc with
      | none => nearestScan dist addrLoc geoKey ks (some (k, dist addrLoc cityLoc))
      | some (bk, bm) =>
        if dist addrLoc cityLoc < bm then
          nearestScan dist addrLoc geoKey ks (some (k, dist addrLoc cityLoc))
        else nearestScan dist addrLoc geoKey ks (some (bk, bm))

/-- The whole inference block (lines 688-735) given the inferred city
and state: prefix stage, fuzzy stage only when the prefix stage failed,
nearest-metro whenever the address geocoded, and
`chosenKey = nearestKey || bestKey`, with `distance_miles` set only by
the nearest stage. -/
def inferMetro {Pt d : Type} [LinearOrder d] (city st : Str) (msaKeys : List Str)
    (geoAddr : Option Pt) (geoKey : Str → Option Pt) (dist : Pt → Pt → d) :
    Option (Str × Option d) :=
  match
    (match geoAddr with
     | none => none
     | some loc =>
       nearestScan dist loc geoKey
         (msaKeys.filter (fun k => endsWithCommaST k (toUpperJS st))) none)
  with
  | some (k, m) => some (k, some m)
  | none =>
    (match prefixScan (toUpperJS city) (toUpperJS st) msaKeys none with
     | some k => some k
     | none => fuzzyAccept (toUpperJS city) (toUpperJS st) msaKeys).map
      (fun k => (k, none))

/-- A resolved property-value candidate (the `pv` object of the
handler): which index matched, the region key, the region entry, the
`inferred` flag, and the nearest-metro distance. -/
structure PVRes (d : Type) : Type where
  type : RKind
  key : Str
  entry : RegionEntry
  inferred : Bool
  distance : Option d
deriving DecidableEq, Repr

/-- JavaScript string truthiness for `null`-or-string values. -/
def truthy : Option Str → Bool
  | none => false
  | some s => s ≠ []

/-- `a || b` where `a` is a `null`-or-string value. -/
def jsOrStr (a b : Option Str) : Option Str := if truthy a then a else b

/-- The geocoder-component city of the inference block (line 672). -/
def oracleCity (inferOracle : Option (Option Str × Option Str)) : Option Str :=
  match inferOracle with
  | some (c, _) => c
  | none => none

/-- The geocoder-component state of the inference block (line 673). -/
def oracleState (inferOracle : Option (Option Str × Option Str)) : Option Str :=
  match inferOracle with
  | some (_, s) => s
  | none => none

/-- The comma-split fallback for the inferred city and state
(lines 680-687): applied when either component is missing; `||` keeps a
truthy component. -/
def inferCityState (address : Str)
    (inferOracle : Option (Option Str × Option Str)) : Option Str × Option Str :=
  if truthy (oracleCity inferOracle) = false ∨
      truthy (oracleState inferOracle) = false then
    if ((splitComma address).map trimJS).length ≥ 2 then
      (jsOrStr (oracleCity inferOracle)
        (some (((splitComma address).map trimJS).getD
          (((splitComma address).map trimJS).length - 2) [])),
       match twoLetterScan none (((splitComma address).map trimJS).getLastD []) with
       | some st => jsOrStr (oracleState inferOracle) (some st)
       | none => oracleState inferOracle)
    else (oracleCity inferOracle, oracleState inferOracle)
  else (oracleCity inferOracle, oracleState inferOracle)

/-- The metro branch of the handler (lines 649-736): exact `"City, ST"`
lookup from the city/state regex; otherwise (for a non-empty metro
index) infer city/state and run the inference block. -/
def metroResolve {Pt d : Type} [LinearOrder d] (address : Str)
    (msaMap : List (Str × RegionEntry))
    (inferOracle : Option (Option Str × Option Str))
    (geoAddr : Option Pt) (geoKey : Str → Option Pt) (dist : Pt → Pt → d) :
    Option (PVRes d) :=
  match
    (match cityStateScan address with
     | some (cityRaw, st2) =>
       match lookupA msaMap
           (toUpperJS (trimJS cityRaw ++ (", ").data ++ toUpperJS st2)) with
       | some e => some (⟨RKind.msa,
           toUpperJS (trimJS cityRaw ++ (", ").data ++ toUpperJS st2), e,
           false, none⟩ : PVRes d)
       | none => none
     | none => none)
  with
  | some pv => some pv
  | none =>
    if msaMap = [] then none
    else
      match inferCityState address inferOracle with
      | (c2, s2) =>
        if truthy c2 && truthy s2 then
          match inferMetro (c2.getD []) (s2.getD []) (msaMap.map Prod.fst)
              geoAddr geoKey dist with
          | some (k, dm) =>
            (lookupA msaMap k).map (fun e =>
              (⟨RKind.msa, k, e, true, dm⟩ : PVRes d))
          | none => none
        else none

/-- The property-value resolution of `/api/getPropertyDetails`
(lines 643-736): exact ZIP first, metro resolution otherwise. -/
def resolvePV {Pt d : Type} [LinearOrder d] (address : Str)
    (zipMap msaMap : List (Str × RegionEntry))
    (inferOracle : Option (Option Str × Option Str))
    (geoAddr : Option Pt) (geoKey : Str → Option Pt) (dist : Pt → Pt → d) :
    Option (PVRes d) :=
  match extractZip address with
  | some z =>
    match lookupA zipMap z with
    | some e => some ⟨RKind.zip, z, e, false, none⟩
    | none => metroResolve address msaMap inferOracle geoAddr geoKey dist
  | none => metroResolve address msaMap inferOracle geoAddr geoKey dist

theorem nearestScan_nil {Pt d : Type} [LinearOrder d] (dist : Pt → Pt → d)
    (loc : Pt) (geoKey : Str → Option Pt) (acc : Option (Str × d)) :
    nearestScan dist loc geoKey [] acc = acc := rfl

theorem nearestScan_skip {Pt d : Type} [LinearOrder d] (dist : Pt → Pt → d)
    (loc : Pt) (geoKey : Str → Option Pt) (k : Str) (ks : List Str)
    (acc : Option (Str × d)) (h : geoKey k = none) :
    nearestScan dist loc geoKey (k :: ks) acc = nearestScan dist loc geoKey ks acc := by
  rw [nearestScan.eq_def]
  dsimp only
  rw [h]

theorem nearestScan_none {Pt d : Type} [LinearOrder d] (dist : Pt → Pt → d)
    (loc : Pt) (geoKey : Str → Option Pt) (k : Str) (ks : List Str)
    (p : Pt) (h : geoKey k = some p) :
    nearestScan dist loc geoKey (k :: ks) none =
      nearestScan dist loc geoKey ks (some (k, dist loc p)) := by
  rw [nearestScan.eq_def]
  dsimp only
  rw [h]

theorem nearestScan_lt {Pt d : Type} [LinearOrder d] (dist : Pt → Pt → d)
    (loc : Pt) (geoKey : Str → Option Pt) (k bk : Str) (ks : List Str)
    (p : Pt) (bm : d) (h : geoKey k = some p) (hlt : dist loc p < bm) :
    nearestScan dist loc geoKey (k :: ks) (some (bk, bm)) =
      nearestScan dist loc geoKey ks (some (k, dist loc p)) := by
  rw [nearestScan.eq_def]
  dsimp only
  rw [h]
  dsimp only
  rw [if_pos hlt]

theorem nearestScan_ge {Pt d : Type} [LinearOrder d] (dist : Pt → Pt → d)
    (loc : Pt) (geoKey : Str → Option Pt) (k bk : Str) (ks : List Str)
    (p : Pt) (bm : d) (h : geoKey k = some p) (hge : ¬ dist loc p < bm) :
    nearestScan dist loc geoKey (k :: ks) (some (bk, bm)) =
      nearestScan dist loc geoKey ks (some (bk, bm)) := by
  rw [nearestScan.eq_def]
  dsimp only
  rw [h]
  dsimp only
  rw [if_neg hge]

/-- Invariant of the nearest-metro loop: a `some` result is either the
accumulator or a scanned key at its own geocoded distance, it is
minimal among all geocodable scanned keys, and it never exceeds the
accumulator's distance; the result is `none` exactly when the
accumulator was empty and no scanned key geocodes. -/
theorem nearestScan_spec {Pt d : Type} [LinearOrder d] (dist : Pt → Pt → d)
    (loc : Pt) (geoKey : Str → Option Pt) :
    ∀ (ks : List Str) (acc : Option (Str × d)),
    (nearestScan dist loc geoKey ks acc = none ↔
      (acc = none ∧ ∀ k ∈ ks, geoKey k = none)) ∧
    (∀ bk bm, nearestScan dist loc geoKey ks acc = some (bk, bm) →
      (acc = some (bk, bm) ∨
        (bk ∈ ks ∧ ∃ p, geoKey bk = some p ∧ bm = dist loc p)) ∧
      (∀ k ∈ ks, ∀ p, geoKey k = some p → bm ≤ dist loc p) ∧
      (∀ bk0 bm0, acc = some (bk0, bm0) → bm ≤ bm0)) := by
  intro ks
  induction ks with
  | nil =>
    intro acc
    refine ⟨⟨fun h => ⟨h, fun k hk => absurd hk (by simp)⟩, fun h => h.1⟩, ?_⟩
    intro bk bm h
    rw [nearestScan_nil] at h
    refine ⟨Or.inl h, fun k hk => absurd hk (by simp), ?_⟩
    intro bk0 bm0 h0
    rw [h0, Option.some.injEq, Prod.mk.injEq] at h
    exact le_of_eq h.2.symm
  | cons k ks ih =>
    intro acc
    rcases hg : geoKey k with _ | p
    · rw [nearestScan_skip dist loc geoKey k ks acc hg]
      have hrec := ih acc
      constructor
      · constructor
        · intro h
          obtain ⟨ha, hall⟩ := hrec.1.mp h
          refine ⟨ha, ?_⟩
          intro k2 hk2
          rcases List.mem_cons.mp hk2 with heq | htail
          · rw [heq]; exact hg
          · exact hall k2 htail
        · rintro ⟨ha, hall⟩
          exact hrec.1.mpr ⟨ha, fun k2 hk2 => hall k2 (List.mem_cons_of_mem _ hk2)⟩
      · intro bk bm h
        obtain ⟨horig, hmin, hacc⟩ := hrec.2 bk bm h
        refine ⟨?_, ?_, hacc⟩
        · rcases horig with heq | ⟨hmem, hp⟩
          · exact Or.inl heq
          · exact Or.inr ⟨List.mem_cons_of_mem _ hmem, hp⟩
        · intro k2 hk2 p2 hp2
          rcases List.mem_cons.mp hk2 with heq | htail
          · rw [heq] at hp2
            rw [hp2] at hg
            cases hg
          · exact hmin k2 htail p2 hp2
    · cases acc with
      | none =>
        rw [nearestScan_none dist loc geoKey k ks p hg]
        have hrec := ih (some (k, dist loc p))
        constructor
        · constructor
          · intro h
            obtain ⟨hcontra, _⟩ := hrec.1.mp h
            cases hcontra
          · rintro ⟨_, hall⟩
            rw [hall k (by simp)] at hg
            cases hg
        · intro bk bm h
          obtain ⟨horig, hmin, hacc⟩ := hrec.2 bk bm h
          have hbk : bm ≤ dist loc p := hacc _ _ rfl
          refine ⟨?_, ?_, ?_⟩
          · rcases horig with heq | ⟨hmem, hp⟩
            · rw [Option.some.injEq, Prod.mk.injEq] at heq
              right
              refine ⟨?_, p, ?_, ?_⟩
              · rw [← heq.1]; simp
              · rw [← heq.1]; exact hg
              · rw [← heq.2]
            · exact Or.inr ⟨List.mem_cons_of_mem _ hmem, hp⟩
          · intro k2 hk2 p2 hp2
            rcases List.mem_cons.mp hk2 with heq | htail
            · rw [heq] at hp2
              rw [hp2, Option.some.injEq] at hg
              rw [hg]
              exact hbk
            · exact hmin k2 htail p2 hp2
          · intro bk0 bm0 h0
            cases h0
      | some acc0 =>
        obtain ⟨bk0, bm0⟩ := acc0
        by_cases hlt : dist loc p < bm0
        · rw [nearestScan_lt dist loc geoKey k bk0 ks p bm0 hg hlt]
          have hrec := ih (some (k, dist loc p))
          constructor
          · constructor
            · intro h
              obtain ⟨hcontra, _⟩ := hrec.1.mp h
              cases hcontra
            · rintro ⟨hcontra, _⟩
              cases hcontra
          · intro bk bm h
            obtain ⟨horig, hmin, hacc⟩ := hrec.2 bk bm h
            have hbk : bm ≤ dist loc p := hacc _ _ rfl
            refine ⟨?_, ?_, ?_⟩
            · rcases horig with heq | ⟨hmem, hp⟩
              · rw [Option.some.injEq, Prod.mk.injEq] at heq
                right
                refine ⟨?_, p, ?_, ?_⟩
                · rw [← heq.1]; simp
                · rw [← heq.1]; exact hg
                · rw [← heq.2]
              · exact Or.inr ⟨List.mem_cons_of_mem _ hmem, hp⟩
            · intro k2 hk2 p2 hp2
              rcases List.mem_cons.mp hk2 with heq | htail
              · rw [heq] at hp2
                rw [hp2, Option.some.injEq] at hg
                rw [hg]
                exact hbk
              · exact hmin k2 htail p2 hp2
            · intro bk1 bm1 h1
              rw [Option.some.injEq, Prod.mk.injEq] at h1
              have h2 : bm1 = bm0 := h1.2.symm ▸ rfl
              calc bm ≤ dist loc p := hbk
                _ ≤ bm0 := le_of_lt hlt
                _ = bm1 := h2.symm
        · rw [nearestScan_ge dist loc geoKey k bk0 ks p bm0 hg hlt]
          have hrec := ih (some (bk0, bm0))
          constructor
          · constructor
            · intro h
              obtain ⟨hcontra, _⟩ := hrec.1.mp h
              cases hcontra
            · rintro ⟨hcontra, _⟩
              cases hcontra
          · intro bk bm h
            obtain ⟨horig, hmin, hacc⟩ := hrec.2 bk bm h
            have hbm0 : bm ≤ bm0 := hacc _ _ rfl
            refine ⟨?_, ?_, ?_⟩
            · rcases horig with heq | ⟨hmem, hp⟩
              · exact Or.inl heq
              · exact Or.inr ⟨List.mem_cons_of_mem _ hmem, hp⟩
            · intro k2 hk2 p2 hp2
              rcases List.mem_cons.mp hk2 with heq | htail
              · rw [heq] at hp2
                rw [hp2, Option.some.injEq] at hg
                rw [hg]
                exact le_trans hbm0 (le_of_not_lt hlt)
              · exact hmin k2 htail p2 hp2
            · intro bk1 bm1 h1
              rw [Option.some.injEq, Prod.mk.injEq] at h1
              rw [← h1.2]
              exact hbm0

/-- C1 counterexample.  With metro keys `ABC, WA` and `XYZ, WA`,
extracted city `AB` and state `WA`, the prefix stage succeeds with
`ABC, WA`; yet when the address geocodes (at 0) and the candidates
geocode (ABC at 5, XYZ at 1), the resolver consults the nearest-metro
stage anyway and returns `XYZ, WA` — the prefix stage's success does
not stop the pipeline and its candidate is overridden. -/
theorem claim_C1_counterexample :
    prefixScan (toUpperJS (("AB").data)) (toUpperJS (("WA").data))
        [ ("ABC, WA").data, ("XYZ, WA").data ] none = some (("ABC, WA").data) ∧
    @inferMetro Nat Nat _ (("AB").data) (("WA").data)
        [ ("ABC, WA").data, ("XYZ, WA").data ] (some 0)
        (fun k => if k = ("ABC, WA").data then some 5
          else if k = ("XYZ, WA").data then some 1 else none)
        (fun a b => max a b - min a b) =
      some ((("XYZ, WA").data), some 1) ∧
    (("XYZ, WA").data : Str) ≠ ("ABC, WA").data := by
  refine ⟨by decide, by decide, by decide⟩

/-- C1 (amended).  Within the inference block the prefix and fuzzy
stages do run in order with first-success-wins *between themselves*
(fuzzy is consulted only when prefix fails), but the nearest-metro
stage is *always* run when the address geocodes, and its result takes
precedence over the prefix/fuzzy candidate; the prefix/fuzzy candidate
is returned (with no distance) only when the nearest-metro scan yields
nothing (no geocoded address or no candidate geocodes).  The nearest
pick is a state-filtered candidate at its own geocoded distance,
minimal among all geocodable state-filtered candidates. -/
theorem claim_C1 {Pt d : Type} [LinearOrder d] (city st : Str) (keys : List Str)
    (geoKey : Str → Option Pt) (dist : Pt → Pt → d) :
    (∀ k, prefixScan (toUpperJS city) (toUpperJS st) keys none = some k →
      inferMetro city st keys (none : Option Pt) geoKey dist = some (k, none)) ∧
    (prefixScan (toUpperJS city) (toUpperJS st) keys none = none →
      ∀ ko, fuzzyAccept (toUpperJS city) (toUpperJS st) keys = ko →
        inferMetro city st keys (none : Option Pt) geoKey dist =
          ko.map (fun k => (k, none))) ∧
    (∀ loc k m,
      nearestScan dist loc geoKey
          (keys.filter (fun k2 => endsWithCommaST k2 (toUpperJS st))) none =
        some (k, m) →
      inferMetro city st keys (some loc) geoKey dist = some (k, some m) ∧
      (k ∈ keys.filter (fun k2 => endsWithCommaST k2 (toUpperJS st)) ∧
        ∃ p, geoKey k = some p ∧ m = dist loc p) ∧
      (∀ k2 ∈ keys.filter (fun k2 => endsWithCommaST k2 (toUpperJS st)),
        ∀ p, geoKey k2 = some p → m ≤ dist loc p)) ∧
    (∀ loc,
      nearestScan dist loc geoKey
          (keys.filter (fun k2 => endsWithCommaST k2 (toUpperJS st))) none = none →
      inferMetro city st keys (some loc) geoKey dist =
        inferMetro city st keys (none : Option Pt) geoKey dist) := by
  refine ⟨?_, ?_, ?_, ?_⟩
  · intro k hp
    unfold inferMetro
    dsimp only
    rw [hp]
    rfl
  · intro hp ko hf
    unfold inferMetro
    dsimp only
    rw [hp, hf]
  · intro loc k m hn
    refine ⟨?_, ?_⟩
    · unfold inferMetro
      dsimp only
      rw [hn]
    · obtain ⟨horig, hmin, _⟩ :=
        (nearestScan_spec dist loc geoKey
          (keys.filter (fun k2 => endsWithCommaST k2 (toUpperJS st))) none).2 k m hn
      rcases horig with hcontra | hok
      · cases hcontra
      · exact ⟨hok, hmin⟩
  · intro loc hn
    unfold inferMetro
    dsimp only
    rw [hn]

/-- Witness for C1 (amended) at a concrete input: with no geocoded
address the prefix candidate `ABC, WA` is returned with no distance. -/
theorem claim_C1_witness :
    prefixScan (toUpperJS (("AB").data)) (toUpperJS (("WA").data))
        [ ("ABC, WA").data, ("XYZ, WA").data ] none = some (("ABC, WA").data) ∧
    @inferMetro Nat Nat _ (("AB").data) (("WA").data)
        [ ("ABC, WA").data, ("XYZ, WA").data ] none (fun _ => none)
        (fun a b => max a b - min a b) = some ((("ABC, WA").data), none) := by
  have hp : prefixScan (toUpperJS (("AB").data)) (toUpperJS (("WA").data))
      [ ("ABC, WA").data, ("XYZ, WA").data ] none = some (("ABC, WA").data) := by
    decide
  exact ⟨hp, (@claim_C1 Nat Nat _ (("AB").data) (("WA").data)
    [ ("ABC, WA").data, ("XYZ, WA").data ] (fun _ => none)
    (fun a b => max a b - min a b)).1 _ hp⟩

/-- C2.  Whenever the address contains a postal code (first match of
`\b(\d{5})(?:-\d{4})?\b`) that is a key of the zip index, resolution
returns that zip entry — type `zip`, the entry (series included)
unchanged — for *every* metro index, geocoder oracle and distance
function: no metro entry influences the result. -/
theorem claim_C2 {Pt d : Type} [LinearOrder d] (address : Str)
    (zipMap msaMap : List (Str × RegionEntry))
    (inferOracle : Option (Option Str × Option Str))
    (geoAddr : Option Pt) (geoKey : Str → Option Pt) (dist : Pt → Pt → d)
    (z : Str) (e : RegionEntry)
    (hz : extractZip address = some z) (he : lookupA zipMap z = some e) :
    resolvePV address zipMap msaMap inferOracle geoAddr geoKey dist =
      some ⟨RKind.zip, z, e, false, none⟩ := by
  unfold resolvePV
  rw [hz]
  dsimp only
  rw [he]

/-- Witness for C2 at the spec's end-to-end scenario:
`400 Broad St, Seattle, WA 98109` with `98109` in the zip index
resolves to the zip entry (series untouched) although a `SEATTLE, WA`
metro entry with a different value also exists. -/
theorem claim_C2_witness :
    extractZip (("400 Broad St, Seattle, WA 98109").data) = some (("98109").data) ∧
    @resolvePV Nat Nat _ (("400 Broad St, Seattle, WA 98109").data)
        [((("98109").data),
          ⟨("2024-01").data, 100, none, [(("2024-01").data, 100)]⟩)]
        [((("SEATTLE, WA").data), ⟨("2024-01").data, 999, none, []⟩)]
        none none (fun _ => none) (fun a b => max a b - min a b) =
      some ⟨RKind.zip, ("98109").data,
        ⟨("2024-01").data, 100, none, [(("2024-01").data, 100)]⟩, false, none⟩ := by
  have hz : extractZip (("400 Broad St, Seattle, WA 98109").data) =
      some (("98109").data) := by decide
  refine ⟨hz, ?_⟩
  exact claim_C2 (("400 Broad St, Seattle, WA 98109").data)
    [((("98109").data), ⟨("2024-01").data, 100, none, [(("2024-01").data, 100)]⟩)]
    [((("SEATTLE, WA").data), ⟨("2024-01").data, 999, none, []⟩)]
    none none (fun _ => none) (fun a b => max a b - min a b)
    (("98109").data) ⟨("2024-01").data, 100, none, [(("2024-01").data, 100)]⟩
    hz (by decide)

/-! ## Yearly aggregation (server.js lines 740-751 and 987-991)

`const byYear = new Map(); for (const pt of series) byYear.set(
pt.ym.slice(0,4), pt.value); yearly = Array.from(byYear.entries())
.sort((a,b)=>a[0].localeCompare(b[0])).map(([year,zhvi])=>...)`

The `Map` is the insertion-ordered association list built with
`mapSet`; `sort` is modelled as insertion sort by the lexicographic
order on character lists, which coincides with `localeCompare` on the
four-digit-year keys (the keys are distinct, so any comparison sort
yields the same list). -/

/-- The `byYear` map: one fold of `byYear.set(pt.ym.slice(0,4), pt.value)`. -/
def byYear (series : List (Str × ℚ)) : List (Str × ℚ) :=
  series.foldl (fun m pt => mapSet m (pt.1.take 4) pt.2) []

/-- Lexicographic string comparison (`a[0].localeCompare(b[0]) ≤ 0` for
the ASCII year keys). -/
def strLe : Str → Str → Bool
  | [], _ => true
  | _ :: _, [] => false
  | a :: as, b :: bs => if a = b then strLe as bs else decide (a < b)

def insertByYear (p : Str × ℚ) : List (Str × ℚ) → List (Str × ℚ)
  | [] => [p]
  | q :: qs => if strLe p.1 q.1 then p :: q :: qs else q :: insertByYear p qs

/-- The `.sort((a,b)=>a[0].localeCompare(b[0]))` step. -/
def sortByYear (l : List (Str × ℚ)) : List (Str × ℚ) := l.foldr insertByYear []

/-- The yearly aggregation of the handlers (lines 740-751, 987-991). -/
def yearly (series : List (Str × ℚ)) : List (Str × ℚ) := sortByYear (byYear series)

/-- Spec-side: the value of the last point of the series whose period
falls in year `y` (searching from the tail). -/
def lastObs (y : Str) : List (Str × ℚ) → Option ℚ
  | [] => none
  | p :: ps =>
    match lastObs y ps with
    | some v => some v
    | none => if p.1.take 4 = y then some p.2 else none

theorem lookupA_cons {α : Type} (x : Str × α) (l : List (Str × α)) (k : Str) :
    lookupA (x :: l) k = if x.1 = k then some x.2 else lookupA l k := by
  by_cases h : x.1 = k
  · rw [lookupA, List.find?_cons_of_pos _ (by simp [h]), if_pos h]
    rfl
  · rw [lookupA, List.find?_cons_of_neg _ (by simp [h]), if_neg h]
    rfl

/-- `Map.set` then `Map.get`. -/
theorem lookupA_mapSet {α : Type} :
    ∀ (m : List (Str × α)) (k : Str) (v : α) (kq : Str),
    lookupA (mapSet m k v) kq = if kq = k then some v else lookupA m kq := by
  intro m
  induction m with
  | nil =>
    intro k v kq
    rw [mapSet, lookupA_cons]
    by_cases h : kq = k
    · rw [if_pos h, if_pos (show (k, v).1 = kq from h.symm)]
    · rw [if_neg h, if_neg (show ¬ (k, v).1 = kq from fun hh => h hh.symm)]
  | cons p ps ih =>
    intro k v kq
    by_cases hp : p.1 = k
    · rw [mapSet, if_pos hp, lookupA_cons, lookupA_cons]
      by_cases h : kq = k
      · rw [if_pos h, if_pos (show (k, v).1 = kq from h.symm)]
      · rw [if_neg h, if_neg (show ¬ (k, v).1 = kq from fun hh => h hh.symm),
          if_neg (show ¬ p.1 = kq from fun hh => h (hp.symm.trans hh).symm)]
    · rw [mapSet, if_neg hp, lookupA_cons, lookupA_cons]
      by_cases hpq : p.1 = kq
      · have h : ¬ kq = k := fun hh => hp (hpq.trans hh)
        rw [if_pos hpq, if_neg h, if_pos hpq]
      · rw [if_neg hpq, if_neg hpq, ih k v kq]

/-- The fold invariant of `byYear`: the final map answers `kq` with the
last observation of that year, falling back to the accumulator. -/
theorem byYear_fold_lookup :
    ∀ (series : List (Str × ℚ)) (m : List (Str × ℚ)) (y : Str),
    lookupA (series.foldl (fun m pt => mapSet m (pt.1.take 4) pt.2) m) y =
      ((lastObs y series).or (lookupA m y)) := by
  intro series
  induction series with
  | nil => intro m y; rfl
  | cons p ps ih =>
    intro m y
    rw [List.foldl_cons, ih, lastObs]
    rcases hobs : lastObs y ps with _ | v
    · rw [lookupA_mapSet]
      by_cases hy : p.1.take 4 = y
      · rw [if_pos hy.symm]
        rw [if_pos hy]
        rfl
      · rw [if_neg (fun hh : y = p.1.take 4 => hy hh.symm), if_neg hy]
    · rfl

theorem lookupA_byYear (series : List (Str × ℚ)) (y : Str) :
    lookupA (byYear series) y = lastObs y series := by
  rw [byYear, byYear_fold_lookup]
  rcases h : lastObs y series with _ | v
  · rfl
  · rfl

theorem keysOf_byYear_nodup (series : List (Str × ℚ)) :
    (keysOf (byYear series)).Nodup := by
  rw [byYear]
  have hgen : ∀ (s : List (Str × ℚ)) (m : List (Str × ℚ)),
      (keysOf m).Nodup →
      (keysOf (s.foldl (fun m pt => mapSet m (pt.1.take 4) pt.2) m)).Nodup := by
    intro s
    induction s with
    | nil => intro m hm; exact hm
    | cons p ps ih =>
      intro m hm
      rw [List.foldl_cons]
      exact ih _ (nodup_keysOf_mapSet _ _ _ hm)
  exact hgen series [] (by simp [keysOf])

/-- Key-unique maps answer membership through `lookupA`. -/
theorem mem_iff_lookupA {α : Type} :
    ∀ (m : List (Str × α)), (keysOf m).Nodup →
    ∀ (y : Str) (v : α), (y, v) ∈ m ↔ lookupA m y = some v := by
  intro m
  induction m with
  | nil => intro _ y v; simp [lookupA]
  | cons p ps ih =>
    intro hnd y v
    rw [keysOf, List.map_cons, List.nodup_cons] at hnd
    rw [List.mem_cons, lookupA_cons]
    constructor
    · intro h
      rcases h with heq | htail
      · rw [← heq]
        simp
      · have hy : p.1 ≠ y := by
          intro hh
          apply hnd.1
          rw [hh]
          exact List.mem_map_of_mem Prod.fst htail
        rw [if_neg hy]
        exact (ih hnd.2 y v).mp htail
    · intro h
      by_cases hp : p.1 = y
      · rw [if_pos hp] at h
        left
        rw [Option.some.injEq] at h
        rw [← hp, ← h]
      · rw [if_neg hp] at h
        right
        exact (ih hnd.2 y v).mpr h

theorem strLe_total : ∀ a b : Str, strLe a b = true ∨ strLe b a = true := by
  intro a
  induction a with
  | nil => intro b; left; rfl
  | cons x xs ih =>
    intro b
    cases b with
    | nil => right; rfl
    | cons y ys =>
      by_cases hxy : x = y
      · rw [strLe, strLe, if_pos hxy, if_pos hxy.symm]
        exact ih ys
      · rcases lt_or_gt_of_ne hxy with hlt | hgt
        · left
          rw [strLe, if_neg hxy]
          simp [hlt]
        · right
          rw [strLe, if_neg (Ne.symm hxy)]
          simp [hgt]

theorem strLe_trans : ∀ a b c : Str,
    strLe a b = true → strLe b c = true → strLe a c = true := by
  intro a
  induction a with
  | nil => intro b c _ _; rfl
  | cons x xs ih =>
    intro b c h1 h2
    cases b with
    | nil => cases h1
    | cons y ys =>
      cases c with
      | nil => cases h2
      | cons z zs =>
        rw [strLe] at h1 h2 ⊢
        by_cases hxy : x = y
        · rw [if_pos hxy] at h1
          by_cases hyz : y = z
          · rw [if_pos hyz] at h2
            rw [if_pos (hxy.trans hyz)]
            exact ih ys zs h1 h2
          · rw [if_neg hyz] at h2
            have hz : x ≠ z := fun hh => hyz (hxy.symm.trans hh)
            rw [if_neg hz]
            rw [hxy]
            exact h2
        · rw [if_neg hxy] at h1
          have hxyl : x < y := of_decide_eq_true h1
          by_cases hyz : y = z
          · have hz : x ≠ z := fun hh => hxy (hh.trans hyz.symm)
            rw [if_neg hz]
            rw [← hyz]
            exact h1
          · rw [if_neg hyz] at h2
            have hyzl : y < z := of_decide_eq_true h2
            have hz : x ≠ z := ne_of_lt (lt_trans hxyl hyzl)
            rw [if_neg hz]
            exact decide_eq_true (lt_trans hxyl hyzl)

theorem insertByYear_perm (p : Str × ℚ) :
    ∀ l : List (Str × ℚ), (insertByYear p l).Perm (p :: l) := by
  intro l
  induction l with
  | nil => exact List.Perm.refl _
  | cons q qs ih =>
    rw [insertByYear]
    by_cases h : strLe p.1 q.1
    · rw [if_pos h]
    · rw [if_neg h]
      exact (List.Perm.cons q ih).trans (List.Perm.swap p q qs)

theorem insertByYear_sorted (p : Str × ℚ) :
    ∀ l : List (Str × ℚ),
    l.Pairwise (fun a b => strLe a.1 b.1 = true) →
    (insertByYear p l).Pairwise (fun a b => strLe a.1 b.1 = true) := by
  intro l
  induction l with
  | nil => intro _; simp [insertByYear]
  | cons q qs ih =>
    intro hs
    rw [List.pairwise_cons] at hs
    rw [insertByYear]
    by_cases h : strLe p.1 q.1
    · rw [if_pos h]
      rw [List.pairwise_cons]
      refine ⟨?_, List.pairwise_cons.mpr hs⟩
      intro r hr
      rcases List.mem_cons.mp hr with heq | htail
      · rw [heq]; exact h
      · exact strLe_trans p.1 q.1 r.1 h (hs.1 r htail)
    · rw [if_neg h]
      rw [List.pairwise_cons]
      constructor
      · intro r hr
        have hr2 := (insertByYear_perm p qs).mem_iff.mp hr
        rcases List.mem_cons.mp hr2 with heq | htail
        · rw [heq]
          rcases strLe_total p.1 q.1 with hc | hc
          · exact absurd hc h
          · exact hc
        · exact hs.1 r htail
      · exact ih hs.2

theorem sortByYear_perm (l : List (Str × ℚ)) : (sortByYear l).Perm l := by
  induction l with
  | nil => exact List.Perm.refl _
  | cons p ps ih =>
    exact (insertByYear_perm p (sortByYear ps)).trans (List.Perm.cons p ih)

theorem sortByYear_sorted (l : List (Str × ℚ)) :
    (sortByYear l).Pairwise (fun a b => strLe a.1 b.1 = true) := by
  induction l with
  | nil => simp [sortByYear]
  | cons p ps ih => exact insertByYear_sorted p (sortByYear ps) ih

theorem lastObs_isSome_of_mem (p : Str × ℚ) :
    ∀ series : List (Str × ℚ), p ∈ series →
    ∃ v, lastObs (p.1.take 4) series = some v := by
  intro series
  induction series with
  | nil => intro h; cases h
  | cons q qs ih =>
    intro h
    rw [lastObs]
    rcases hq : lastObs (p.1.take 4) qs with _ | v
    · rcases List.mem_cons.mp h with heq | htail
      · rw [← heq, if_pos rfl]
        exact ⟨p.2, rfl⟩
      · obtain ⟨v, hv⟩ := ih htail
        rw [hv] at hq
        cases hq
    · exact ⟨v, rfl⟩

/-- C7.  The yearly aggregation emits one point per calendar year
present in the monthly series, in ascending year order, whose value is
the value of the last month of that year in input order: membership in
the output coincides with `lastObs` (the value of the final in-order
point of that year), every input point's year is represented, the
output keys are strictly ascending, and the spec's example evaluates as
stated — `[(2022-01,100),(2022-06,110),(2023-03,120)]` yields
`[(2022,110),(2023,120)]`. -/
theorem claim_C7 :
    (yearly [ (("2022-01").data, (100 : ℚ)), (("2022-06").data, 110),
        (("2023-03").data, 120) ] =
      [ (("2022").data, 110), (("2023").data, 120) ]) ∧
    (∀ (series : List (Str × ℚ)) (y : Str) (v : ℚ),
      ((y, v) ∈ yearly series ↔ lastObs y series = some v)) ∧
    (∀ (series : List (Str × ℚ)) (p : Str × ℚ), p ∈ series →
      ∃ v, (p.1.take 4, v) ∈ yearly series) ∧
    (∀ series : List (Str × ℚ),
      (yearly series).Pairwise (fun a b => strLe a.1 b.1 = true ∧ a.1 ≠ b.1)) := by
  have hmem : ∀ (series : List (Str × ℚ)) (y : Str) (v : ℚ),
      ((y, v) ∈ yearly series ↔ lastObs y series = some v) := by
    intro series y v
    rw [yearly, (sortByYear_perm (byYear series)).mem_iff,
      mem_iff_lookupA (byYear series) (keysOf_byYear_nodup series) y v,
      lookupA_byYear]
  refine ⟨by decide, hmem, ?_, ?_⟩
  · intro series p hp
    obtain ⟨v, hv⟩ := lastObs_isSome_of_mem p series hp
    exact ⟨v, (hmem series (p.1.take 4) v).mpr hv⟩
  · intro series
    have hsorted := sortByYear_sorted (byYear series)
    have hnd : (keysOf (yearly series)).Nodup := by
      have hperm : (keysOf (yearly series)).Perm (keysOf (byYear series)) :=
        (sortByYear_perm (byYear series)).map Prod.fst
      exact hperm.nodup_iff.mpr (keysOf_byYear_nodup series)
    have hne : (yearly series).Pairwise (fun a b => a.1 ≠ b.1) :=
      List.pairwise_map.mp hnd
    exact hsorted.and hne

/-- Witness for C7 at the spec's example series. -/
theorem claim_C7_witness :
    ((("2022").data, (110 : ℚ)) ∈ yearly [ (("2022-01").data, (100 : ℚ)),
      (("2022-06").data, 110), (("2023-03").data, 120) ]) ∧
    (∃ v, ((("2023-03").data.take 4, v) ∈ yearly [ (("2022-01").data, (100 : ℚ)),
      (("2022-06").data, 110), (("2023-03").data, 120) ])) := by
  constructor
  · exact (claim_C7.2.1 [ (("2022-01").data, (100 : ℚ)), (("2022-06").data, 110),
      (("2023-03").data, 120) ] (("2022").data) 110).mpr (by decide)
  · exact claim_C7.2.2.1 [ (("2022-01").data, (100 : ℚ)), (("2022-06").data, 110),
      (("2023-03").data, 120) ] ((("2023-03").data, 120)) (by decide)

/-! ## Refresh manager (`refreshZillowDataset`, server.js lines 213-243)

The remote (`https?:`) path is modelled.  A fetch outcome is either a
network-level rejection (`Fetch.fail`, which makes `Promise.all`
reject) or a response with an `ok` flag and a body.  Parsing is the
load functions `loadZillowWideCSV` / `loadZillowPricePerSqftCSV`, which
swallow their own errors: they replace the published snapshot in one
assignment when the parse yields a snapshot and leave it untouched
otherwise (both early `return`s and the `catch` branch); they never
throw into the refresh.  Snapshots are whole values: publication is the
single assignment `zillowValues = {...}` (line 120), so a reader sees
either the old or the completed new snapshot. -/

/-- Outcome of one `fetch`. -/
inductive Fetch : Type
  | fail : Fetch
  | resp : Bool → Str → Fetch
deriving DecidableEq, Repr

/-- The ZHVI snapshot (zip and metro indices, line 120). -/
structure ZhviSnap : Type where
  zipMap : List (Str × RegionEntry)
  msaMap : List (Str × RegionEntry)
deriving DecidableEq, Repr

/-- The published dataset state: `zillowValues` and `zillowPpsf`. -/
structure ZState : Type where
  values : Option ZhviSnap
  ppsf : Option (List (Str × RegionEntry))
deriving DecidableEq, Repr

/-- `loadZillowWideCSV` on fetched text: publish the parse result in a
single assignment, or leave the previous snapshot if the parse comes up
empty (`catch` / early returns). -/
def loadZhvi (parseWide : Str → Option ZhviSnap) (st : ZState) (text : Str) : ZState :=
  match parseWide text with
  | some snap => { st with values := some snap }
  | none => st

/-- `loadZillowPricePerSqftCSV`, same shape. -/
def loadPpsf (parsePpsf : Str → Option (List (Str × RegionEntry)))
    (st : ZState) (text : Str) : ZState :=
  match parsePpsf text with
  | some m => { st with ppsf := some m }
  | none => st

/-- `refreshZillowDataset` for remote sources (lines 224-242):
`Promise.all` of the two fetches (any rejection throws before any state
changes); a non-ok primary response throws; a non-ok secondary response
only warns; then the primary is parsed and published, and the secondary
only when its download succeeded.  `ppsfFetch = none` models a
configuration without a secondary source URL
(`ppsfSrc ? fetch(ppsfSrc) : Promise.resolve(null)`). -/
def refreshZillowDataset (parseWide : Str → Option ZhviSnap)
    (parsePpsf : Str → Option (List (Str × RegionEntry)))
    (st : ZState) (zhviFetch : Fetch) (ppsfFetch : Option Fetch) :
    Except Unit ZState :=
  match zhviFetch, ppsfFetch with
  | Fetch.fail, _ => Except.error ()
  | _, some Fetch.fail => Except.error ()
  | Fetch.resp ok body, ppsfResp =>
    if ok = false then Except.error ()
    else
      match ppsfResp with
      | some (Fetch.resp pok pbody) =>
        if pok then Except.ok (loadPpsf parsePpsf (loadZhvi parseWide st body) pbody)
        else Except.ok (loadZhvi parseWide st body)
      | _ => Except.ok (loadZhvi parseWide st body)

/-- C5 counterexample.  The claim says that when only the secondary
price-per-sqft download fails the refresh still succeeds with a fresh
primary snapshot.  But a *network-level* secondary failure rejects the
whole `Promise.all` (line 231), so the refresh fails even though the
primary download succeeded: with a successfully fetched primary body
and `Fetch.fail` for the secondary, the refresh errors and nothing is
published. -/
theorem claim_C5_counterexample :
    refreshZillowDataset (fun _ => some ⟨[], []⟩) (fun _ => some [])
      ⟨none, none⟩ (Fetch.resp true (("body").data)) (some Fetch.fail) =
      Except.error () ∧
    (fun _ : Str => some (⟨[], []⟩ : ZhviSnap)) (("body").data) ≠ none := by
  constructor
  · rfl
  · intro h; cases h

/-- C5 (amended).  Refresh error handling, for every starting state,
fetched bodies and parse functions: (1) a primary network failure or
non-ok primary response fails the refresh, and (2) so does a secondary
*network* failure, even when the primary succeeded — in all these cases
the published state is unchanged (the model returns no new state, and
in the source all throws happen before any assignment); (3) a non-ok
secondary *response* (or no secondary source) degrades: the refresh
succeeds, the primary parse is published, and the previous
price-per-sqft snapshot stays; (4) an ok secondary response publishes
both; and in every success the published value index is either the old
one (parse came up empty) or exactly the complete parse of the fetched
body — never a partially built snapshot. -/
theorem claim_C5 (parseWide : Str → Option ZhviSnap)
    (parsePpsf : Str → Option (List (Str × RegionEntry)))
    (st : ZState) :
    (∀ ppsfFetch, refreshZillowDataset parseWide parsePpsf st Fetch.fail ppsfFetch =
      Except.error ()) ∧
    (∀ body ppsfFetch, refreshZillowDataset parseWide parsePpsf st
      (Fetch.resp false body) ppsfFetch = Except.error ()) ∧
    (∀ zhviFetch, refreshZillowDataset parseWide parsePpsf st zhviFetch
      (some Fetch.fail) = Except.error ()) ∧
    (∀ body,
      refreshZillowDataset parseWide parsePpsf st (Fetch.resp true body) none =
        Except.ok (loadZhvi parseWide st body) ∧
      (∀ pbody, refreshZillowDataset parseWide parsePpsf st (Fetch.resp true body)
        (some (Fetch.resp false pbody)) = Except.ok (loadZhvi parseWide st body)) ∧
      (loadZhvi parseWide st body).ppsf = st.ppsf ∧
      (∀ pbody, refreshZillowDataset parseWide parsePpsf st (Fetch.resp true body)
        (some (Fetch.resp true pbody)) =
        Except.ok (loadPpsf parsePpsf (loadZhvi parseWide st body) pbody)) ∧
      ((loadZhvi parseWide st body).values = st.values ∨
        (loadZhvi parseWide st body).values = parseWide body)) := by
  refine ⟨?_, ?_, ?_, ?_⟩
  · intro ppsfFetch
    rcases ppsfFetch with _ | pf
    · rfl
    · rcases pf with _ | ⟨pok, pbody⟩
      · rfl
      · rfl
  · intro body ppsfFetch
    rcases ppsfFetch with _ | pf
    · rfl
    · rcases pf with _ | ⟨pok, pbody⟩
      · rfl
      · rfl
  · intro zhviFetch
    rcases zhviFetch with _ | ⟨ok, body⟩
    · rfl
    · rfl
  · intro body
    refine ⟨rfl, fun pbody => rfl, ?_, fun pbody => rfl, ?_⟩
    · rw [loadZhvi]
      rcases parseWide body with _ | snap
      · rfl
      · rfl
    · rw [loadZhvi]
      rcases hw : parseWide body with _ | snap
      · left; rfl
      · right; rfl

/-! ## Concurrency of refresh (server.js lines 205-243, §5 of the spec)

`refreshZillowDataset` contains no guard whatsoever: every invocation
unconditionally performs its own download (the `await Promise.all`
at line 231 is a suspension point at which other invocations run) and
then publishes.  We model N concurrent refresh invocations as an
interleaved transition system: each task atomically performs its
`download` step (pc 0 → 1, incrementing the global download counter)
and then its `publish` step (pc 1 → 2); a scheduler picks any ready
task at each step.  There is no state a task consults before
downloading, so no schedule can coalesce two invocations. -/

/-- A configuration of `n` concurrent refresh invocations: each task's
program counter (0 = not started, 1 = downloaded, 2 = returned) and the
number of downloads performed so far. -/
structure RConf (n : Nat) : Type where
  pcs : Fin n → Nat
  downloads : Nat

/-- One interleaving step: some task downloads or publishes. -/
inductive RStep {n : Nat} : RConf n → RConf n → Prop
  | download (c c' : RConf n) (i : Fin n) (h : c.pcs i = 0)
      (h2 : c'.pcs = Function.update c.pcs i 1)
      (h3 : c'.downloads = c.downloads + 1) : RStep c c'
  | publish (c c' : RConf n) (i : Fin n) (h : c.pcs i = 1)
      (h2 : c'.pcs = Function.update c.pcs i 2)
      (h3 : c'.downloads = c.downloads) : RStep c c'

/-- All tasks pending, nothing downloaded. -/
def rInit (n : Nat) : RConf n := ⟨fun _ => 0, 0⟩

/-- Every invocation has returned. -/
def rDone {n : Nat} (c : RConf n) : Prop := ∀ i, c.pcs i = 2

/-- The running invariant: the download counter equals the number of
tasks that have passed their download step. -/
theorem rstep_invariant {n : Nat} {c c' : RConf n} (hs : RStep c c')
    (hinv : c.downloads = (Finset.univ.filter (fun i => 1 ≤ c.pcs i)).card) :
    c'.downloads = (Finset.univ.filter (fun i => 1 ≤ c'.pcs i)).card := by
  cases hs with
  | download i h h2 h3 =>
    rw [h3, hinv, h2]
    have hset : Finset.univ.filter (fun j => 1 ≤ Function.update c.pcs i 1 j) =
        insert i (Finset.univ.filter (fun j => 1 ≤ c.pcs j)) := by
      ext j
      by_cases hj : j = i
      · subst hj
        simp [Function.update_same]
      · simp [Function.update_noteq hj, hj]
    rw [hset, Finset.card_insert_of_not_mem (by simp [h])]
  | publish i h h2 h3 =>
    rw [h3, hinv, h2]
    have hset : Finset.univ.filter (fun j => 1 ≤ Function.update c.pcs i 2 j) =
        Finset.univ.filter (fun j => 1 ≤ c.pcs j) := by
      ext j
      by_cases hj : j = i
      · subst hj
        simp [Function.update_same, h]
      · simp [Function.update_noteq hj]
    rw [hset]

/-- The two-task completed configuration of the counterexample trace. -/
def cDl1 : RConf 2 := ⟨fun i => if i = 0 then 1 else 0, 1⟩

/-- Both tasks downloaded, none published yet. -/
def cDl2 : RConf 2 := ⟨fun _ => 1, 2⟩

/-- Task 0 published. -/
def cPub1 : RConf 2 := ⟨fun i => if i = 0 then 2 else 1, 2⟩

/-- Both tasks done. -/
def cFinal2 : RConf 2 := ⟨fun _ => 2, 2⟩

/-- C6 counterexample.  Two simultaneous refresh invocations, in the
schedule where both reach their download before either publishes,
perform two network downloads, not one: the claimed single-flight
collapse does not exist in the code. -/
theorem claim_C6_counterexample :
    Relation.ReflTransGen RStep (rInit 2) cFinal2 ∧ rDone cFinal2 ∧
      cFinal2.downloads = 2 := by
  refine ⟨?_, fun i => rfl, rfl⟩
  have s1 : RStep (rInit 2) cDl1 := by
    refine RStep.download _ _ 0 rfl ?_ rfl
    funext j
    fin_cases j <;> rfl
  have s2 : RStep cDl1 cDl2 := by
    refine RStep.download _ _ 1 rfl ?_ rfl
    funext j
    fin_cases j <;> rfl
  have s3 : RStep cDl2 cPub1 := by
    refine RStep.publish _ _ 0 rfl ?_ rfl
    funext j
    fin_cases j <;> rfl
  have s4 : RStep cPub1 cFinal2 := by
    refine RStep.publish _ _ 1 rfl ?_ rfl
    funext j
    fin_cases j <;> rfl
  exact Relation.ReflTransGen.head s1 (Relation.ReflTransGen.head s2
    (Relation.ReflTransGen.head s3 (Relation.ReflTransGen.single s4)))

/-- C6 (amended).  There is no single-flight coalescing: in every
complete execution of N simultaneous refresh invocations, the number of
network downloads equals N — each caller performs its own download
(and sequentially ordered invocations behave the same, since refresh
never consults the published state before downloading). -/
theorem claim_C6 (n : Nat) (c : RConf n)
    (hreach : Relation.ReflTransGen RStep (rInit n) c) (hdone : rDone c) :
    c.downloads = n := by
  have hinv : ∀ c2 : RConf n, Relation.ReflTransGen RStep (rInit n) c2 →
      c2.downloads = (Finset.univ.filter (fun i => 1 ≤ c2.pcs i)).card := by
    intro c2 h
    induction h with
    | refl => simp [rInit]
    | tail h1 h2 ih => exact rstep_invariant h2 ih
  rw [hinv c hreach]
  have hall : Finset.univ.filter (fun i => 1 ≤ c.pcs i) = Finset.univ := by
    ext i
    simp [hdone i]
  rw [hall]
  simp

/-- Witness for C6 (amended) at the counterexample trace itself: the
completed two-task execution has exactly two downloads. -/
theorem claim_C6_witness : (2 : Nat) = 2 ∧ cFinal2.downloads = 2 := by
  have hreach : Relation.ReflTransGen RStep (rInit 2) cFinal2 := by
    have s1 : RStep (rInit 2) cDl1 := by
      refine RStep.download _ _ 0 rfl ?_ rfl
      funext j
      fin_cases j <;> rfl
    have s2 : RStep cDl1 cDl2 := by
      refine RStep.download _ _ 1 rfl ?_ rfl
      funext j
      fin_cases j <;> rfl
    have s3 : RStep cDl2 cPub1 := by
      refine RStep.publish _ _ 0 rfl ?_ rfl
      funext j
      fin_cases j <;> rfl
    have s4 : RStep cPub1 cFinal2 := by
      refine RStep.publish _ _ 1 rfl ?_ rfl
      funext j
      fin_cases j <;> rfl
    exact Relation.ReflTransGen.head s1 (Relation.ReflTransGen.head s2
      (Relation.ReflTransGen.head s3 (Relation.ReflTransGen.single s4)))
  exact ⟨rfl, claim_C6 2 cFinal2 hreach (fun i => rfl)⟩

/-! ## Geocode cache (`geocode`, server.js lines 246-259)

`geocodeCache` is threaded explicitly; the external call is the oracle
`collab` (the outcome the single `fetch` would have); the result triple
is (returned location, cache afterwards, number of external calls). -/

/-- Outcome of the geocoder fetch: network failure / thrown JSON parse
(`gfail`, the `catch` branch), or a response with its `ok` flag and the
parsed `results` locations. -/
inductive GeoResp (Pt : Type) : Type
  | gfail : GeoResp Pt
  | gresp (ok : Bool) (results : List Pt) : GeoResp Pt
deriving DecidableEq, Repr

/-- `geocode(query)` (lines 247-259). -/
def geocode {Pt : Type} (hasKey : Bool) (cache : List (Str × Pt)) (query : Str)
    (collab : GeoResp Pt) : Option Pt × List (Str × Pt) × Nat :=
  if hasKey = false then (none, cache, 0)
  else
    match lookupA cache (toLowerJS query) with
    | some v => (some v, cache, 0)
    | none =>
      match collab with
      | GeoResp.gfail => (none, cache, 1)
      | GeoResp.gresp ok results =>
        if ok = false then (none, cache, 1)
        else
          match results.head? with
          | none => (none, cache, 1)
          | some loc => (some loc, mapSet cache (toLowerJS query) loc, 1)

/-- C9.  With an API key configured, the query is lower-cased before
the cache lookup; a hit answers from the cache with no external call;
a miss calls the external geocoder exactly once, and on failure
(network error, non-success status, or empty result set) returns `null`
and stores nothing, while on success it stores and returns the first
result's coordinates under the lower-cased key. -/
theorem claim_C9 {Pt : Type} (cache : List (Str × Pt)) (query : Str)
    (collab : GeoResp Pt) :
    (∀ v, lookupA cache (toLowerJS query) = some v →
      geocode true cache query collab = (some v, cache, 0)) ∧
    (lookupA cache (toLowerJS query) = none →
      (geocode true cache query collab).2.2 = 1 ∧
      (collab = GeoResp.gfail →
        geocode true cache query collab = (none, cache, 1)) ∧
      (∀ results, collab = GeoResp.gresp false results →
        geocode true cache query collab = (none, cache, 1)) ∧
      (collab = GeoResp.gresp true [] →
        geocode true cache query collab = (none, cache, 1)) ∧
      (∀ loc rest, collab = GeoResp.gresp true (loc :: rest) →
        geocode true cache query collab =
          (some loc, mapSet cache (toLowerJS query) loc, 1))) := by
  constructor
  · intro v hv
    rw [geocode.eq_def]
    simp only [Bool.true_eq_false, if_false]
    rw [hv]
  · intro hmiss
    have hbase : geocode true cache query collab =
        (match collab with
          | GeoResp.gfail => (none, cache, 1)
          | GeoResp.gresp ok results =>
            if ok = false then (none, cache, 1)
            else
              match results.head? with
              | none => (none, cache, 1)
              | some loc => (some loc, mapSet cache (toLowerJS query) loc, 1)) := by
      rw [geocode.eq_def]
      simp only [Bool.true_eq_false, if_false]
      rw [hmiss]
    refine ⟨?_, ?_, ?_, ?_, ?_⟩
    · rw [hbase]
      rcases collab with _ | ⟨ok, results⟩
      · rfl
      · rcases ok with _ | _
        · rfl
        · rcases results with _ | ⟨loc, rest⟩
          · rfl
          · rfl
    · intro hc
      rw [hbase, hc]
    · intro results hc
      rw [hbase, hc]
      rfl
    · intro hc
      rw [hbase, hc]
      rfl
    · intro loc rest hc
      rw [hbase, hc]
      rfl

/-- Witness for C9 at concrete inputs: a hit on the lower-cased key and
a successful miss that caches the first result. -/
theorem claim_C9_witness :
    @geocode Nat true [ (("seattle, wa").data, 7) ] (("Seattle, WA").data)
        (GeoResp.gresp true [99]) = (some 7, [ (("seattle, wa").data, 7) ], 0) ∧
    @geocode Nat true [] (("Seattle, WA").data)
        (GeoResp.gresp true [99]) =
      (some 99, [ (("seattle, wa").data, 99) ], 1) ∧
    @geocode Nat true [] (("Seattle, WA").data) GeoResp.gfail =
      (none, [], 1) := by
  refine ⟨?_, ?_, ?_⟩
  · exact (claim_C9 [ (("seattle, wa").data, 7) ] (("Seattle, WA").data)
      (GeoResp.gresp true [99])).1 7 (by decide)
  · have h := ((@claim_C9 Nat [] (("Seattle, WA").data)
      (GeoResp.gresp true [99])).2 (by decide)).2.2.2.2 99 [] rfl
    rw [h]
    rfl
  · exact ((@claim_C9 Nat [] (("Seattle, WA").data)
      GeoResp.gfail).2 (by decide)).2.1 rfl

/-! ## Region override endpoint (`/api/regionValues`, server.js lines 976-1006) -/

/-- The successful payload of `/api/regionValues`. -/
structure RVPayload : Type where
  region : Str
  latest : Str
  zhvi : ℚ
  yearlySeries : List (Str × ℚ)
  series : List (Str × ℚ)
  ppsf : Option (Str × ℚ × List (Str × ℚ))
deriving DecidableEq, Repr

/-- The endpoint's response. -/
inductive RVResp : Type
  | badRequest : RVResp
  | notFound : RVResp
  | ok (p : RVPayload) : RVResp
deriving DecidableEq, Repr

/-- The `/api/regionValues` handler after the datasets are ensured
(lines 978-1006): missing/empty region → 400; upper-cased key absent
from the value-index metro map → 404 `Region not found`; otherwise the
payload is built from the value-index entry, with price-per-sqft
attached only if the same upper-cased key is in the PPSF metro map. -/
def regionValues (region : Option Str) (msaMap ppsfMap : List (Str × RegionEntry)) :
    RVResp :=
  match region with
  | none => RVResp.badRequest
  | some r =>
    if r = [] then RVResp.badRequest
    else
      match lookupA msaMap (toUpperJS r) with
      | none => RVResp.notFound
      | some entry =>
        RVResp.ok ⟨toUpperJS r, entry.date, entry.value, yearly entry.series,
          takeLast 240 entry.series,
          match lookupA ppsfMap (toUpperJS r) with
          | some pe => some (pe.date, pe.value, takeLast 240 pe.series)
          | none => none⟩

/-- C10.  For a present, non-empty region string: the handler answers
404 `Region not found` exactly when the upper-cased region is absent
from the value-index metro map — for *every* price-per-sqft map, so a
region present only there is still not found — and on success the
response's region field is the upper-cased key (lookup is performed on
the upper-cased string only). -/
theorem claim_C10 (r : Str) (msaMap ppsfMap : List (Str × RegionEntry))
    (hr : r ≠ []) :
    (regionValues (some r) msaMap ppsfMap = RVResp.notFound ↔
      lookupA msaMap (toUpperJS r) = none) ∧
    (∀ e, lookupA msaMap (toUpperJS r) = some e →
      regionValues (some r) msaMap ppsfMap =
        RVResp.ok ⟨toUpperJS r, e.date, e.value, yearly e.series,
          takeLast 240 e.series,
          match lookupA ppsfMap (toUpperJS r) with
          | some pe => some (pe.date, pe.value, takeLast 240 pe.series)
          | none => none⟩) := by
  have hbase : regionValues (some r) msaMap ppsfMap =
      (match lookupA msaMap (toUpperJS r) with
        | none => RVResp.notFound
        | some entry =>
          RVResp.ok ⟨toUpperJS r, entry.date, entry.value, yearly entry.series,
            takeLast 240 entry.series,
            match lookupA ppsfMap (toUpperJS r) with
            | some pe => some (pe.date, pe.value, takeLast 240 pe.series)
            | none => none⟩) := by
    rw [regionValues]
    rw [if_neg hr]
  constructor
  · rw [hbase]
    rcases hm : lookupA msaMap (toUpperJS r) with _ | e
    · simp
    · simp
  · intro e he
    rw [hbase, he]

/-- Witness for C10: `seattle, wa` present only in the PPSF map is not
found; present in the value index it succeeds with the upper-cased
region. -/
theorem claim_C10_witness :
    regionValues (some (("seattle, wa").data))
        [] [ (("SEATTLE, WA").data, ⟨("2024-01").data, 5, none, []⟩) ] =
      RVResp.notFound ∧
    regionValues (some (("seattle, wa").data))
        [ (("SEATTLE, WA").data, ⟨("2024-01").data, 7, none, []⟩) ] [] =
      RVResp.ok ⟨("SEATTLE, WA").data, ("2024-01").data, 7, [], [], none⟩ := by
  constructor
  · exact (claim_C10 (("seattle, wa").data) []
      [ (("SEATTLE, WA").data, ⟨("2024-01").data, 5, none, []⟩) ]
      (by decide)).1.mpr (by decide)
  · have h := (claim_C10 (("seattle, wa").data)
      [ (("SEATTLE, WA").data, ⟨("2024-01").data, 7, none, []⟩) ] []
      (by decide)).2 ⟨("2024-01").data, 7, none, []⟩ (by decide)
    rw [h]
    rfl

end Server
